/-
  Verification of the satellite-dashboard caching and bucketing core
  (CycleRuleEngine, TaskResultAnalyzer, DataStore, QueryCache, CacheManager).

  The JavaScript source is embedded shallowly:
  * JS `Date` values are modelled by civil wall-clock components (`DT`) together
    with an integer millisecond timestamp (`getTimeDT`).  Per the design's hard
    invariant ("all date arithmetic uses the record's literal wall-clock
    components, never shifted for UTC or browser timezone"), local time and UTC
    coincide in the model (zero offset, no DST), so `getTime`-level arithmetic
    and civil-component reads are mutually consistent.
  * JS numbers that only ever hold integral millisecond timestamps are `Int`;
    the one genuinely fractional computation (the week-label ordinal) uses `ℚ`.
  * Fallible operations return `Except`/`Option`; promise outcomes of the
    CacheManager are an explicit outcome type, and underlying IndexedDB
    transaction failures are modelled by an oracle saying which object stores
    fail their transaction.
-/
import Mathlib

namespace SatCore

/-! ## Calendar model (proleptic Gregorian, zero-offset local time) -/

/-- Leap year test (Gregorian). -/
def isLeap (y : Int) : Bool := (y % 4 == 0 && y % 100 != 0) || (y % 400 == 0)

/-- Number of leap years in `[1, y-1]` (floor division; `/` on `Int` is
Euclidean division, which is floor division for positive divisors). -/
def leapCount (y : Int) : Int := (y-1) / 4 - (y-1) / 100 + (y-1) / 400

/-- Days in month `mo` (0-based, JS style) of year `y`. -/
def daysInMonth (y : Int) : Nat → Nat
  | 0 => 31 | 1 => if isLeap y then 29 else 28 | 2 => 31 | 3 => 30 | 4 => 31
  | 5 => 30 | 6 => 31 | 7 => 31 | 8 => 30 | 9 => 31 | 10 => 30 | _ => 31

/-- Cumulative days before month `mo` (0-based) in a non-leap year. -/
def daysBeforeMonth : Nat → Int
  | 0 => 0 | 1 => 31 | 2 => 59 | 3 => 90 | 4 => 120 | 5 => 151 | 6 => 181
  | 7 => 212 | 8 => 243 | 9 => 273 | 10 => 304 | _ => 334

/-- Day number of civil date `(y, mo, d)` relative to the epoch 1970-01-01
(day 0).  `mo` is 0-based; `d` may be any integer (the function is affine in
`d`), which models the way JS `Date` normalises out-of-range day components at
the timestamp level. -/
def dayNumber (y : Int) (mo : Nat) (d : Int) : Int :=
  365*(y-1) + leapCount y + daysBeforeMonth mo
    + (if 2 ≤ mo ∧ isLeap y then 1 else 0) + (d - 1) - 719162

/-- Civil date `(year, month0, day)` of an epoch day number
(Howard Hinnant's `civil_from_days`, with floor division). -/
def civilFromDay (z0 : Int) : Int × Nat × Nat :=
  let z := z0 + 719468
  let era := z / 146097
  let doe := z - era * 146097
  let yoe := (doe - doe / 1460 + doe / 36524 - doe / 146096) / 365
  let y := yoe + era * 400
  let doy := doe - (365*yoe + yoe / 4 - yoe / 100)
  let mp := (5*doy + 2) / 153
  let d := doy - (153*mp+2) / 5 + 1
  let m := mp + (if mp < 10 then 3 else -9)
  (if m ≤ 2 then y+1 else y, (m-1).toNat, d.toNat)

/-- A JS `Date` read through its civil wall-clock components, at second
granularity (`createFileDate` copies year..second and drops milliseconds). -/
structure DT where
  year : Int
  month : Nat
  day : Nat
  hour : Nat
  minute : Nat
  second : Nat
deriving DecidableEq, Repr

/-- Millisecond timestamp of a `DT` (JS `Date.prototype.getTime`). -/
def getTimeDT (dt : DT) : Int :=
  dayNumber dt.year dt.month dt.day * 86400000
    + ((dt.hour * 3600 + dt.minute * 60 + dt.second : Nat) : Int) * 1000

/-- Civil components of a millisecond timestamp (what JS `Date` getters return
for a `Date` built from a raw timestamp); milliseconds are dropped, matching
`createFileDate`. -/
def civilFromTime (ms : Int) : DT :=
  let day := ms / 86400000
  let tod := (ms % 86400000).toNat
  let c := civilFromDay day
  ⟨c.1, c.2.1, c.2.2, tod / 3600000, tod / 60000 % 60, tod / 1000 % 60⟩

/-- A structurally valid civil date-time. -/
def ValidDT (dt : DT) : Prop :=
  dt.month < 12 ∧ 1 ≤ dt.day ∧ dt.day ≤ daysInMonth dt.year dt.month
    ∧ dt.hour < 24 ∧ dt.minute < 60 ∧ dt.second < 60

instance (dt : DT) : Decidable (ValidDT dt) := by unfold ValidDT; infer_instance

/-! ## String helpers (JS formatting) -/

/-- `String.prototype.padStart(2, "0")`. -/
def padStart2 (s : String) : String :=
  if s.length ≥ 2 then s else if s.length = 1 then "0" ++ s else "00"

/-- Two-digit zero padding of a natural number. -/
def pad2 (n : Nat) : String := padStart2 (toString n)

/-- `formatDate` / `formatDateCorrected`: `YYYY-MM-DD` from civil components. -/
def fmtYMD (y : Int) (mo : Nat) (d : Nat) : String :=
  toString y ++ "-" ++ pad2 (mo+1) ++ "-" ++ pad2 d

/-! ## CycleRuleEngine -/

/-- The engine configuration (`this.config` of `CycleRuleEngine`). -/
structure CycleConfig where
  dayStart : String
  weekStartDay : Int
  weekStartTime : String
  monthStartDate : Int
  monthStartTime : String
  quarterStartMonth : Int
  quarterStartTime : String
deriving Repr

/-- The constructor's default configuration. -/
def defaultConfig : CycleConfig :=
  { dayStart := "00:00", weekStartDay := 1, weekStartTime := "00:00",
    monthStartDate := 1, monthStartTime := "00:00",
    quarterStartMonth := 1, quarterStartTime := "00:00" }

/-- Split a character list on a separator (the behaviour of
`String.prototype.split` with a one-character separator; implemented
structurally so that concrete evaluation reduces in the kernel). -/
def splitChars (sep : Char) : List Char → List (List Char)
  | [] => [[]]
  | c :: cs =>
    let rest := splitChars sep cs
    if c = sep then [] :: rest
    else
      match rest with
      | r :: rs => (c :: r) :: rs
      | [] => [[c]]

/-- Decimal-digit parse (`none` on empty or non-digit input) — the behaviour
of JS `Number(...)` on the digit strings the engine feeds it. -/
def digitsToNat? (l : List Char) : Option Nat :=
  if l.isEmpty then none
  else
    l.foldl (fun acc c =>
      match acc with
      | none => none
      | some n => if c.isDigit then some (n * 10 + (c.toNat - 48)) else none) (some 0)

/-- JS `Number(s) || 0` on the pieces of an `HH:mm` string. -/
def jsNumOr0 (l : List Char) : Nat := (digitsToNat? l).getD 0

/-- `parseTimeToHoursMinutes`: split on `:` and coerce each piece. -/
def parseTimeToHoursMinutes (t : String) : Nat × Nat :=
  let parts := splitChars ':' t.toList
  (jsNumOr0 (parts.getD 0 []), jsNumOr0 (parts.getD 1 []))

/-- The configured offset `HH:mm` parses to an in-range time of day. -/
def HMok (s : String) : Prop :=
  (parseTimeToHoursMinutes s).1 < 24 ∧ (parseTimeToHoursMinutes s).2 < 60

instance (s : String) : Decidable (HMok s) := by unfold HMok; infer_instance

/-- Offset time-of-day in milliseconds. -/
def todMs (s : String) : Int :=
  (((parseTimeToHoursMinutes s).1 * 3600 + (parseTimeToHoursMinutes s).2 * 60 : Nat) : Int) * 1000

/-- Result of a cycle-group computation (`{key, label, rangeStart, rangeEnd}`;
the two range endpoints are millisecond timestamps). -/
structure GroupInfo where
  key : String
  label : String
  rangeStart : Int
  rangeEnd : Int
deriving DecidableEq, Repr

/-- A normalized civil date (no time of day). -/
structure CivD where
  year : Int
  month : Nat
  day : Nat
deriving DecidableEq, Repr

/-- Civil reading of JS `new Date(y, mo, d)` for a 0-based month `mo ≤ 11` and
a day value `d` that over- or under-flows by at most one month (the only shapes
the engine constructs: `d ∈ [0, 59]`).  JS normalises via the timestamp; this
is the equivalent single borrow/carry on civil components. -/
def mkJsDate (y : Int) (mo : Nat) (d : Int) : CivD :=
  if d < 1 then
    if mo = 0 then ⟨y-1, 11, (31 + d).toNat⟩
    else ⟨y, mo-1, ((daysInMonth y (mo-1) : Int) + d).toNat⟩
  else if d ≤ (daysInMonth y mo : Int) then ⟨y, mo, d.toNat⟩
  else
    if mo = 11 then ⟨y+1, 0, (d - daysInMonth y mo).toNat⟩
    else ⟨y, mo+1, (d - daysInMonth y mo).toNat⟩

/-- Civil reading of JS `date.setMonth(mo, 0)` — day 0 of month `mo` (`mo ≤ 12`
in all call sites), i.e. the last day of month `mo - 1`. -/
def jsSetMonthDay0 (y : Int) (mo : Nat) : CivD :=
  if mo = 0 then ⟨y-1, 11, 31⟩
  else if mo ≤ 11 then ⟨y, mo-1, daysInMonth y (mo-1)⟩
  else ⟨y, 11, 31⟩

/-- `getDayGroup`: reference start is the record's own civil day at the
configured offset; roll back one day if the instant is earlier. -/
def getDayGroup (cfg : CycleConfig) (dt : DT) : GroupInfo :=
  let todC := todMs cfg.dayStart
  let fileT := getTimeDT dt
  let dayN := dayNumber dt.year dt.month dt.day
  let refT := dayN * 86400000 + todC
  let csT := if fileT ≥ refT then refT else refT - 86400000
  let g := civilFromTime csT
  { key := fmtYMD g.year g.month g.day, label := fmtYMD g.year g.month g.day,
    rangeStart := csT, rangeEnd := csT + 86400000 }

/-- Names of week days used in week labels (`weekDays[startDay]`,
`undefined` when out of range). -/
def weekDayName (i : Int) : String :=
  if i = 0 then "周日" else if i = 1 then "周一" else if i = 2 then "周二"
  else if i = 3 then "周三" else if i = 4 then "周四" else if i = 5 then "周五"
  else if i = 6 then "周六" else "undefined"

/-- `getWeekGroup`: anchor at the configured week-start day/time and roll back
one week if the instant is earlier; the label's week ordinal uses JS float
division, modelled exactly over `ℚ`. -/
def getWeekGroup (cfg : CycleConfig) (dt : DT) : GroupInfo :=
  let startDay := cfg.weekStartDay
  let todC := todMs cfg.weekStartTime
  let fileT := getTimeDT dt
  let dayN := dayNumber dt.year dt.month dt.day
  let currentDay := (dayN + 4) % 7
  let dd0 := currentDay - startDay
  let dayDiff := if dd0 < 0 then dd0 + 7 else dd0
  let refT := (dayN - dayDiff) * 86400000 + todC
  let csT := if fileT ≥ refT then refT else refT - 604800000
  let csC := civilFromTime csT
  let yr := csC.year
  let firstDayT := dayNumber yr 0 1 * 86400000
  let pastDays : ℚ := ((csT - firstDayT : Int) : ℚ) / 86400000
  let fdW : Int := (dayNumber yr 0 1 + 4) % 7
  let week : Int := ⌈(pastDays + fdW + 1) / 7⌉
  { key := toString yr ++ "-W" ++ padStart2 (toString week),
    label := toString yr ++ "年第" ++ toString week ++ "周（" ++ weekDayName startDay ++ "）",
    rangeStart := csT, rangeEnd := csT + 604800000 }

/-- The source's repeated anchor-and-clamp step of `getMonthGroup`: construct
`new Date(y, mo, sd)` and, when the day-of-month spilled over
(`getDate() !== startDate`), apply `setMonth(getMonth() + 1, 0)`. -/
def monthAnchor (sd : Int) (y : Int) (mo : Nat) : CivD :=
  let c0 := mkJsDate y mo sd
  if (c0.day : Int) = sd then c0 else jsSetMonthDay0 c0.year (c0.month + 1)

/-- `getMonthGroup`: anchor at the configured day-of-month (with the source's
end-of-month adjustment wherever the constructed date's day-of-month spills
over), roll back one month if the instant is earlier; the end is the next
month's anchor. -/
def getMonthGroup (cfg : CycleConfig) (dt : DT) : GroupInfo :=
  let sd := cfg.monthStartDate
  let todC := todMs cfg.monthStartTime
  let y := dt.year
  let mo := dt.month
  let fileT := getTimeDT dt
  let ref1 := monthAnchor sd y mo
  let refT := dayNumber ref1.year ref1.month ref1.day * 86400000 + todC
  let cs :=
    if fileT ≥ refT then ref1
    else monthAnchor sd (if mo = 0 then y - 1 else y) (if mo = 0 then 11 else mo - 1)
  let csT := dayNumber cs.year cs.month cs.day * 86400000 + todC
  let nextMonth := cs.month + 1
  let nextYear := cs.year + (if nextMonth > 11 then 1 else 0)
  let adjNextMonth := if nextMonth > 11 then 0 else nextMonth
  let ce1 := monthAnchor sd nextYear adjNextMonth
  let ceT := dayNumber ce1.year ce1.month ce1.day * 86400000 + todC
  { key := toString cs.year ++ "-" ++ pad2 (cs.month + 1),
    label := toString cs.year ++ "年" ++ toString (cs.month + 1) ++ "月",
    rangeStart := csT, rangeEnd := ceT }

/-- `getQuarterGroup`: the quarter-start month table, a year-adjusted anchor,
a roll-back of `3*30` days (sic) when the instant is earlier, and the next
quarter anchor as range end. -/
def getQuarterGroup (cfg : CycleConfig) (dt : DT) : GroupInfo :=
  let sm := cfg.quarterStartMonth
  let todC := todMs cfg.quarterStartTime
  let y := dt.year
  let cm : Int := (dt.month : Int) + 1
  let fileT := getTimeDT dt
  let qs : Int :=
    if sm = 1 then (if cm ≤ 3 then 1 else if cm ≤ 6 then 4 else if cm ≤ 9 then 7 else 10)
    else if sm = 4 then (if cm ≤ 6 then 4 else if cm ≤ 9 then 7 else if cm ≤ 12 then 10 else 1)
    else if sm = 7 then (if cm ≤ 9 then 7 else if cm ≤ 12 then 10 else if cm ≤ 3 then 1 else 4)
    else (if cm ≤ 12 then 10 else if cm ≤ 3 then 1 else if cm ≤ 6 then 4 else 7)
  let refY := if qs ≤ cm then y else y - 1
  let refT := dayNumber refY (qs - 1).toNat 1 * 86400000 + todC
  let branch1 := fileT ≥ refT
  let csT := if branch1 then refT else refT - 7776000000
  let csYear := if branch1 then refY else (civilFromTime csT).year
  let nqs0 := qs + 3
  let nqs := if nqs0 > 12 then nqs0 - 12 else nqs0
  let nqy := if nqs0 > 12 then csYear + 1 else csYear
  let ceT := dayNumber nqy (nqs - 1).toNat 1 * 86400000 + todC
  let quarter := (qs - 1) / 3 + 1
  { key := toString csYear ++ "-Q" ++ toString quarter,
    label := toString csYear ++ "年第" ++ toString quarter ++ "季度",
    rangeStart := csT, rangeEnd := ceT }

/-- The `switch (groupType)` of `getGroup`, on an already-validated date
(unknown types fall through to the day group). -/
def getGroupOfDate (cfg : CycleConfig) (dt : DT) (groupType : String) : GroupInfo :=
  if groupType = "day" then getDayGroup cfg dt
  else if groupType = "week" then getWeekGroup cfg dt
  else if groupType = "month" then getMonthGroup cfg dt
  else if groupType = "quarter" then getQuarterGroup cfg dt
  else getDayGroup cfg dt

/-- The string-date formats the application feeds to `new Date(...)` /
`parseLocalTime`: `YYYY-MM-DD`, optionally followed by a space or `T` and
`HH:mm` or `HH:mm:ss`.  Returns `none` for anything unparseable (an invalid
date, `NaN` time value). -/
def jsNewDate (s : String) : Option DT :=
  let s1 := s.toList.map (fun c => if c = 'T' then ' ' else c)
  let parts := splitChars ' ' s1
  let dstr := parts.getD 0 []
  let tstr := parts.getD 1 []
  match splitChars '-' dstr with
  | [ys, ms, ds] =>
    match digitsToNat? ys, digitsToNat? ms, digitsToNat? ds with
    | some y, some mo, some d =>
      if 1 ≤ mo ∧ mo ≤ 12 ∧ 1 ≤ d ∧ d ≤ daysInMonth (y : Int) (mo - 1) then
        let hms : Option (Nat × Nat × Nat) :=
          if tstr.isEmpty then some (0, 0, 0)
          else
            match splitChars ':' tstr with
            | [hs, mins] =>
              match digitsToNat? hs, digitsToNat? mins with
              | some h, some mi => some (h, mi, 0)
              | _, _ => none
            | [hs, mins, ss] =>
              match digitsToNat? hs, digitsToNat? mins, digitsToNat? ss with
              | some h, some mi, some sec => some (h, mi, sec)
              | _, _, _ => none
            | _ => none
        match hms with
        | some (h, mi, sec) =>
          if h ≤ 23 ∧ mi ≤ 59 ∧ sec ≤ 59 then some ⟨(y : Int), mo - 1, d, h, mi, sec⟩
          else none
        | none => none
      else none
    | _, _, _ => none
  | _ => none

/-- The argument of `CycleRuleEngine.getGroup`: either an existing `Date`
object (`none` models an invalid `Date`, whose time value is `NaN`) or a raw
string coerced through `new Date(date)`. -/
inductive JSDateArg where
  | jsDate (d : Option DT)
  | jsStr (s : String)

/-- `date instanceof Date ? date : new Date(date)` followed by the `NaN`
validity test: the effective validated date of a `getGroup` argument. -/
def coerceDateArg : JSDateArg → Option DT
  | .jsDate o => o
  | .jsStr s => jsNewDate s

/-- `getGroup`: validates the date (throwing `无效的日期` on an invalid one)
and dispatches on the group type. -/
def getGroup (cfg : CycleConfig) (arg : JSDateArg) (groupType : String) :
    Except String GroupInfo :=
  match coerceDateArg arg with
  | none => .error "无效的日期"
  | some dt => .ok (getGroupOfDate cfg dt groupType)

/-- Configuration restrictions under which the half-open-range property of
claim C1 actually holds on the source code (the amendment of C1): any valid
offset for day and week; a start day-of-month that never needs end-of-month
clamping for month; only the default configuration for quarter. -/
def AmendedCycleOK (cfg : CycleConfig) (T : String) : Prop :=
  if T = "day" then HMok cfg.dayStart
  else if T = "week" then
    HMok cfg.weekStartTime ∧ 0 ≤ cfg.weekStartDay ∧ cfg.weekStartDay ≤ 6
  else if T = "month" then
    HMok cfg.monthStartTime ∧ 1 ≤ cfg.monthStartDate ∧ cfg.monthStartDate ≤ 28
  else if T = "quarter" then
    cfg.quarterStartMonth = 1 ∧ parseTimeToHoursMinutes cfg.quarterStartTime = (0, 0)
  else False

instance (cfg : CycleConfig) (T : String) : Decidable (AmendedCycleOK cfg T) := by
  unfold AmendedCycleOK; infer_instance

/-- A spec-legal configuration (`quarter.startMonth` is one of 1/4/7/10) on
which C1 as stated fails. -/
def cfgQuarterApril : CycleConfig :=
  { dayStart := "00:00", weekStartDay := 1, weekStartTime := "00:00",
    monthStartDate := 1, monthStartTime := "00:00",
    quarterStartMonth := 4, quarterStartTime := "00:00" }

/-- The configuration of spec Scenario B: day-start offset `06:00`. -/
def cfgDay0600 : CycleConfig :=
  { dayStart := "06:00", weekStartDay := 1, weekStartTime := "00:00",
    monthStartDate := 1, monthStartTime := "00:00",
    quarterStartMonth := 1, quarterStartTime := "00:00" }

/-! ## TaskResultAnalyzer -/

/-- The fixed failure categories of `isFailure`. -/
def failureTypes : List String :=
  ["因设备故障失败", "因操作失误失败", "未跟踪", "因卫星方原因失败", "任务成功数据处理失误"]

/-- `isFailure`. -/
def isFailure (result : String) : Bool := failureTypes.contains result

/-- The categories counted toward the success rate (`isSuccessForRate`). -/
def validTypesForRate : List String := ["正常", "未跟踪", "因卫星方原因失败"]

/-- `isSuccessForRate`. -/
def isSuccessForRate (result : String) : Bool := validTypesForRate.contains result

/-- `countFailures`. -/
def countFailures (results : List String) : Nat := (results.filter isFailure).length

/-- `Number.prototype.toFixed(3)` followed by `parseFloat`, in the exact
rational model of JS arithmetic: round to the nearest multiple of 1/1000,
ties toward `+∞` (the larger candidate, per the `toFixed` spec). -/
def toFixed3 (q : ℚ) : ℚ := ((⌊q * 1000 + 1/2⌋ : Int) : ℚ) / 1000

/-- `calculateSuccessRate`. -/
def calculateSuccessRate (results : List String) (planIdCount : Int) : ℚ :=
  if planIdCount ≤ 0 then 0
  else toFixed3 (((results.filter isSuccessForRate).length : ℚ) / (planIdCount : ℚ) * 100)

/-! ## Records and association-list helpers (JS `Map` with insertion order) -/

/-- The value found in a record's start-time field: a `Date` object (by its
millisecond time value), a spreadsheet-serial number (integral in the model),
a string, or a missing/invalid value. -/
inductive TimeVal where
  | vDate (ts : Int)
  | vNum (serial : Int)
  | vStr (s : String)
  | vNone
deriving DecidableEq, Repr

/-- A task record, restricted to the fields the core reads (with the default
field mapping `id` / `plan_id` / `start_time` / `task_result`, plus the
`timestamp` field the CacheManager derives and stores). -/
structure Rec where
  id : Option String
  planId : String
  startTime : TimeVal
  timestamp : Option Int
  taskResult : String
deriving DecidableEq, Repr

/-- JS template-literal stringification of a start-time value (used only to
synthesize identity keys for records lacking an `id`). -/
def timeValStr : TimeVal → String
  | .vDate ts => "Date(" ++ toString ts ++ ")"
  | .vNum n => toString n
  | .vStr s => s
  | .vNone => "undefined"

/-- `Map.prototype.get` on an insertion-ordered association list. -/
def alookup {α : Type} (l : List (String × α)) (k : String) : Option α :=
  (l.find? (fun p => p.1 == k)).map (fun p => p.2)

/-- `Map.prototype.set`: update in place when the key exists (keeping its
position), else append. -/
def aset {α : Type} (l : List (String × α)) (k : String) (v : α) : List (String × α) :=
  if l.any (fun p => p.1 == k) then l.map (fun p => if p.1 == k then (k, v) else p)
  else l ++ [(k, v)]

/-- `Map.prototype.delete` (first occurrence). -/
def aremove {α : Type} : List (String × α) → String → List (String × α)
  | [], _ => []
  | x :: xs, k => if x.1 == k then xs else x :: aremove xs k

/-- Replace the first element satisfying `p` (the `findIndex` + index-assign
pattern). -/
def replaceFirst {α : Type} : List α → (α → Bool) → α → List α
  | [], _, _ => []
  | x :: xs, p, v => if p x then v :: xs else x :: replaceFirst xs p v

/-- `Set.prototype.add` on an insertion-ordered list. -/
def addSet (l : List String) (k : String) : List String :=
  if l.contains k then l else l ++ [k]

/-! ## DataStore -/

/-- `getRecordKey`: the record's `id`, or `` `${planId}_${startTime}` `` when
the `id` field is missing. -/
def getRecordKey (r : Rec) : String :=
  match r.id with
  | some s => s
  | none => r.planId ++ "_" ++ timeValStr r.startTime

/-- A bucket (`{key, label, records, rangeStart, rangeEnd}`). -/
structure Bkt where
  key : String
  label : String
  records : List Rec
  rangeStart : Int
  rangeEnd : Int
deriving DecidableEq, Repr

/-- The DataStore state: the bucket map and the record-key → bucket-key
reverse map. -/
structure DSState where
  buckets : List (String × Bkt)
  recordToBucket : List (String × String)
deriving DecidableEq, Repr

/-- A fresh (or cleared) DataStore. -/
def emptyDS : DSState := ⟨[], []⟩

/-- The millisecond timestamp `addRecordsToBucketBatch` derives from a record
(`Date.getTime()`, spreadsheet serial `(v - 25569) * 86400000`, or string
parse); `none` models the `continue`-on-`NaN` paths. -/
def batchTs (r : Rec) : Option Int :=
  match r.startTime with
  | .vDate ts => some ts
  | .vNum n => some ((n - 25569) * 86400000)
  | .vStr s => (jsNewDate s).map getTimeDT
  | .vNone => none

/-- The `Date` that `addRecordToBucket` passes to the cycle engine; its civil
components coincide with `civilFromTime` of the record's derived timestamp
(a JS `Date` is its time value; `createFileDate` truncates to seconds). -/
def seqDate (r : Rec) : Option DT :=
  match r.startTime with
  | .vDate ts => some (civilFromTime ts)
  | .vStr s => (jsNewDate s).map (fun dt => civilFromTime (getTimeDT dt))
  | .vNum n => some (civilFromTime ((n - 25569) * 86400000))
  | .vNone => none

/-- `addRecordToBucket`: single-record incremental insert. -/
def addRecordToBucket (st : DSState) (cfg : CycleConfig) (groupType : String) (r : Rec) :
    DSState × Option String :=
  match seqDate r with
  | none => (st, none)
  | some dt =>
    let gi := getGroupOfDate cfg dt groupType
    let gk := gi.key
    let rk := getRecordKey r
    match alookup st.buckets gk with
    | none =>
      ({ buckets := st.buckets ++ [(gk, ⟨gk, gi.label, [r], gi.rangeStart, gi.rangeEnd⟩)],
         recordToBucket := aset st.recordToBucket rk gk }, some gk)
    | some b =>
      let recs :=
        if b.records.any (fun x => getRecordKey x == rk) then
          replaceFirst b.records (fun x => getRecordKey x == rk) r
        else b.records ++ [r]
      ({ buckets := aset st.buckets gk { b with records := recs },
         recordToBucket := aset st.recordToBucket rk gk }, some gk)

/-- The per-group accumulator of `addRecordsToBucketBatch`. -/
structure GAcc where
  label : String
  rangeStart : Int
  rangeEnd : Int
  records : List Rec
  recordKeys : List String
deriving DecidableEq, Repr

/-- The loop state of `addRecordsToBucketBatch`'s single parsing pass
(`groupedData`, `groupInfoCache`, and the live `recordToBucket` map, which the
source mutates directly during the pass). -/
structure BatchAcc where
  grouped : List (String × GAcc)
  giCache : List (String × GroupInfo)
  r2b : List (String × String)
deriving DecidableEq, Repr

/-- One iteration of the batch parsing pass: global dedup via the reverse map,
timestamp parse, per-UTC-day group-info cache, grouping, and the live
reverse-map update. -/
def batchStep (cfg : CycleConfig) (groupType : String) (acc : BatchAcc) (r : Rec) : BatchAcc :=
  let rk := getRecordKey r
  if (alookup acc.r2b rk).isSome then acc
  else
    match batchTs r with
    | none => acc
    | some ts =>
      let ck := toString (ts / 86400000) ++ "_" ++ groupType
      let gic :=
        match alookup acc.giCache ck with
        | some gi => (gi, acc.giCache)
        | none =>
          let gi := getGroupOfDate cfg (civilFromTime ts) groupType
          (gi, aset acc.giCache ck gi)
      let gk := gic.1.key
      let grouped1 :=
        match alookup acc.grouped gk with
        | none =>
          acc.grouped ++ [(gk, ⟨gic.1.label, gic.1.rangeStart, gic.1.rangeEnd, [r], [rk]⟩)]
        | some g =>
          aset acc.grouped gk
            { g with records := g.records ++ [r], recordKeys := addSet g.recordKeys rk }
      { grouped := grouped1, giCache := gic.2, r2b := aset acc.r2b rk gk }

/-- The batch's second phase: merge the grouped data into the bucket map and
re-assert the reverse-map entries. -/
def mergeGroups (st : DSState) (grouped : List (String × GAcc)) : DSState :=
  grouped.foldl (fun st' kv =>
    let gk := kv.1
    let g := kv.2
    let b : Bkt :=
      match alookup st'.buckets gk with
      | none => ⟨gk, g.label, [], g.rangeStart, g.rangeEnd⟩
      | some b0 => b0
    let bucketsMid :=
      match alookup st'.buckets gk with
      | none => st'.buckets ++ [(gk, b)]
      | some _ => st'.buckets
    { buckets := aset bucketsMid gk { b with records := b.records ++ g.records },
      recordToBucket := g.recordKeys.foldl (fun m rk => aset m rk gk) st'.recordToBucket }) st

/-- `addRecordsToBucketBatch`. -/
def addRecordsToBucketBatch (st : DSState) (cfg : CycleConfig) (groupType : String)
    (records : List Rec) : DSState :=
  if records.isEmpty then st
  else
    let acc := records.foldl (batchStep cfg groupType) ⟨[], [], st.recordToBucket⟩
    mergeGroups { st with recordToBucket := acc.r2b } acc.grouped

/-- `loadData`: clear, then batch-load. -/
def loadData (records : List Rec) (cfg : CycleConfig) (groupType : String) : DSState :=
  addRecordsToBucketBatch emptyDS cfg groupType records

/-- Loading records one-by-one through repeated `addRecordToBucket` calls on a
fresh DataStore (the right-hand side of claim C2). -/
def loadOneByOne (records : List Rec) (cfg : CycleConfig) (groupType : String) : DSState :=
  records.foldl (fun st r => (addRecordToBucket st cfg groupType r).1) emptyDS

/-! ## QueryCache -/

/-- A per-query cache entry (`{data, timestamp, size, accessCount}`); the
result set is carried as its JSON serialisation, whose length is the byte-size
estimate the source computes. -/
structure QCEntry where
  data : String
  timestamp : Int
  size : Nat
  accessCount : Nat
deriving DecidableEq, Repr

/-- The hot-window cache slot. -/
structure HotSlot where
  data : String
  startDate : Int
  endDate : Int
  timestamp : Int
deriving DecidableEq, Repr

/-- The QueryCache state: per-query map, hot-window slot, full-dataset slot,
and the running byte-size counter. -/
structure QCState where
  cache : List (String × QCEntry)
  hotDataCache : Option HotSlot
  fullDataCache : Option (String × Int)
  currentCacheSize : Int
deriving DecidableEq, Repr

/-- `maxCacheSize` (100 MB). -/
def maxCacheSize : Nat := 104857600

/-- `cacheTTL` (5 minutes). -/
def cacheTTL : Int := 300000

/-- A freshly-constructed QueryCache. -/
def initQC : QCState := ⟨[], none, none, 0⟩

/-- `getCacheKey`. -/
def getCacheKey (startDate endDate : Option Int) (optStr : String) : String :=
  "query_" ++ (match startDate with | some t => toString t | none => "all") ++ "_"
    ++ (match endDate with | some t => toString t | none => "all") ++ "_" ++ optStr

/-- `get`: TTL-checked lookup with LRU touch; expired entries are evicted on
access.  `now` is the ambient `Date.now()`. -/
def qcGet (st : QCState) (startDate endDate : Option Int) (optStr : String) (now : Int) :
    QCState × Option String :=
  let key := getCacheKey startDate endDate optStr
  match alookup st.cache key with
  | none => (st, none)
  | some e =>
    if now - e.timestamp > cacheTTL then
      ({ st with cache := aremove st.cache key,
                 currentCacheSize := st.currentCacheSize - e.size }, none)
    else
      ({ st with
           cache := aset st.cache key
             ({ e with accessCount := e.accessCount + 1, timestamp := now }) },
       some e.data)

/-- The linear minimum-timestamp scan of `evictOldest` (strict `<`, so the
first minimal entry wins). -/
def findOldest (l : List (String × QCEntry)) : Option (String × QCEntry) :=
  l.foldl (fun best p =>
    match best with
    | none => some p
    | some b => if p.2.timestamp < b.2.timestamp then some p else some b) none

/-- `evictOldest`. -/
def evictOldest (st : QCState) : QCState :=
  match findOldest st.cache with
  | none => st
  | some p =>
    { st with cache := aremove st.cache p.1,
              currentCacheSize := st.currentCacheSize - p.2.size }

/-- The `while (currentCacheSize + dataSize > maxCacheSize && cache.size > 0)
evictOldest()` loop of `set`.  Each iteration removes one entry, so running it
with fuel `cache.length` is exactly the while loop. -/
def evictLoop (fuel : Nat) (st : QCState) (dataSize : Nat) : QCState :=
  match fuel with
  | 0 => st
  | f + 1 =>
    if st.currentCacheSize + dataSize > (maxCacheSize : Int) ∧ st.cache.length > 0 then
      evictLoop f (evictOldest st) dataSize
    else st

/-- `set`: reject oversized entries, evict until the new entry fits, insert. -/
def qcSet (st : QCState) (startDate endDate : Option Int) (data : String) (optStr : String)
    (now : Int) : QCState :=
  let key := getCacheKey startDate endDate optStr
  let dataSize := data.length
  if dataSize > maxCacheSize then st
  else
    let st1 := evictLoop st.cache.length st dataSize
    { st1 with cache := aset st1.cache key ⟨data, now, dataSize, 0⟩,
               currentCacheSize := st1.currentCacheSize + dataSize }

/-- `clear`. -/
def qcClear (_st : QCState) : QCState := ⟨[], none, none, 0⟩

/-- `invalidate`: clears all three cache layers. -/
def qcInvalidate (st : QCState) : QCState := qcClear st

/-- An externally-observable QueryCache operation (`set` or `get`), carrying
its ambient `Date.now()`. -/
inductive QCOp where
  | opSet (startDate endDate : Option Int) (data : String) (optStr : String) (now : Int)
  | opGet (startDate endDate : Option Int) (optStr : String) (now : Int)
deriving Repr

/-- Apply one operation to the cache state. -/
def applyQCOp (st : QCState) : QCOp → QCState
  | .opSet s e d o n => qcSet st s e d o n
  | .opGet s e o n => (qcGet st s e o n).1

/-- Run an operation sequence from a fresh cache. -/
def runQCOps (ops : List QCOp) : QCState := ops.foldl applyQCOp initQC

/-- Total byte size of the entries actually resident in the per-query cache. -/
def qcResident (st : QCState) : Nat := (st.cache.map (fun p => p.2.size)).sum

/-! ## CacheManager -/

/-- A registered partition's configuration (its object-store name). -/
structure PartCfg where
  storeName : String
deriving DecidableEq, Repr

/-- The CacheManager state: materialized object stores with their rows, the
in-memory partition registry (`this.partitions`, insertion-ordered), and the
query cache. -/
structure CMState where
  tables : List (String × List Rec)
  partitions : List (String × PartCfg)
  queryCache : QCState
deriving DecidableEq, Repr

/-- The `^(\d{4})_Q(\d)$` format check of `registerPartition`. -/
def isPartitionIdFormat (s : String) : Bool :=
  match s.toList with
  | [a, b, c, d, '_', 'Q', e] => a.isDigit && b.isDigit && c.isDigit && d.isDigit && e.isDigit
  | _ => false

/-- `registerPartition`. -/
def registerPartition (st : CMState) (pid : String) : CMState :=
  if (alookup st.partitions pid).isSome then st
  else if isPartitionIdFormat pid then
    { st with partitions := st.partitions ++ [(pid, ⟨"satellite_data_" ++ pid⟩)] }
  else st

/-- `${year}_Q${Math.ceil((month+1)/3)}` of a millisecond timestamp. -/
def partitionIdOfTime (ts : Int) : String :=
  let c := civilFromTime ts
  toString c.year ++ "_Q" ++ toString ((c.month + 1 + 2) / 3)

/-- `parseTimeToTimestamp` (returns `0` for unparseable values; the string
branch models `parseLocalTime`, whose format family `jsNewDate` captures). -/
def parseTimeToTimestamp (tv : TimeVal) : Int :=
  match tv with
  | .vNum n => if n > 1000000000000 then n else n * 1000
  | .vStr s =>
    match jsNewDate s with
    | some dt => getTimeDT dt
    | none => 0
  | .vDate ts => ts
  | .vNone => 0

/-- JS truthiness of a start-time field value. -/
def jsTruthyTime : TimeVal → Bool
  | .vNone => false
  | .vStr s => !s.isEmpty
  | .vNum n => n != 0
  | .vDate _ => true

/-- JS falsiness of the whole `taskDate` argument (`!taskDate`). -/
def jsFalsyTimeVal (tv : TimeVal) : Bool := !jsTruthyTime tv

/-- The effective timestamp `groupRecordsByPartition` derives for a record
(`record.timestamp`, else parsed from `start_time`; `none` models the
skip-with-warning path for a falsy result). -/
def recEffTs (r : Rec) : Option Int :=
  let t0 : Int := match r.timestamp with | some t => t | none => 0
  let t1 : Int :=
    if t0 = 0 ∧ jsTruthyTime r.startTime then parseTimeToTimestamp r.startTime else t0
  if t1 = 0 then none else some t1

/-- One record of the `groupRecordsByPartition` loop: derive the timestamp
(skipping when absent), route to the partition key, and append. -/
def groupStepCM (groups : List (String × List Rec)) (r : Rec) : List (String × List Rec) :=
  match recEffTs r with
  | none => groups
  | some ts =>
    let pid := partitionIdOfTime ts
    match alookup groups pid with
    | none => groups ++ [(pid, [r])]
    | some l => aset groups pid (l ++ [r])

/-- `groupRecordsByPartition`. -/
def groupRecordsByPartition (records : List Rec) : List (String × List Rec) :=
  records.foldl groupStepCM []

/-- `put` into an object store keyed by `id` (upsert). -/
def upsertRecord (rows : List Rec) (r : Rec) : List Rec :=
  if rows.any (fun x => x.id == r.id) then rows.map (fun x => if x.id == r.id then r else x)
  else rows ++ [r]

/-- `writeToPartitionTables`: write each group into its partition's store,
skipping unregistered partitions and not-yet-created tables. -/
def writeToPartitionTables (st : CMState) (groups : List (String × List Rec)) : CMState :=
  groups.foldl (fun st' kv =>
    if kv.2.isEmpty then st'
    else
      match alookup st'.partitions kv.1 with
      | none => st'
      | some cfg =>
        match alookup st'.tables cfg.storeName with
        | none => st'
        | some rows =>
          { st' with tables := aset st'.tables cfg.storeName (kv.2.foldl upsertRecord rows) }) st

/-- `ensurePartitionsExist`: the schema migration that creates the object
store of every registered partition that lacks one. -/
def ensurePartitionsExist (st : CMState) : CMState :=
  st.partitions.foldl (fun st' kv =>
    match alookup st'.tables kv.2.storeName with
    | some _ => st'
    | none => { st' with tables := st'.tables ++ [(kv.2.storeName, [])] }) st

/-- What an `appendData` call yields: the state at the moment its promise
resolves, the returned `totalWritten`, the partitions whose records are only
written by the un-awaited background task, and the state once that background
task completes. -/
structure AppendOutcome where
  state : CMState
  returned : Nat
  asyncPartitions : List String
  asyncState : CMState
deriving Repr

/-- `appendData`. -/
def appendData (st0 : CMState) (newRecords : List Rec) : AppendOutcome :=
  if newRecords.isEmpty then ⟨st0, 0, [], st0⟩
  else
    let groups := groupRecordsByPartition newRecords
    let pids := groups.map (fun p => p.1)
    let newPartitions := pids.filter (fun pid => (alookup st0.partitions pid).isNone)
    let st1 := newPartitions.foldl registerPartition st0
    let newPartitionData := groups.filter (fun p => newPartitions.contains p.1)
    let existingGroups := groups.filter (fun p => !newPartitions.contains p.1)
    let syncWritten := (existingGroups.map (fun p => p.2.length)).sum
    let st2 := if existingGroups.isEmpty then st1 else writeToPartitionTables st1 existingGroups
    let totalWritten := syncWritten + (newPartitionData.map (fun p => p.2.length)).sum
    let st3 : CMState := { st2 with queryCache := qcInvalidate st2.queryCache }
    let asyncFinal :=
      if newPartitions.isEmpty then st3
      else writeToPartitionTables (ensurePartitionsExist st3) newPartitionData
    ⟨st3, totalWritten, newPartitions, asyncFinal⟩

/-- Outcome of a single-record write promise. -/
inductive UpdateResult where
  | ok (b : Bool)
  | err (e : String)
deriving DecidableEq, Repr

/-- Outcome of a batch write promise. -/
inductive BatchResult where
  | ok (n : Nat)
  | err (e : String)
deriving DecidableEq, Repr

/-- Outcome of a delete promise (`recordId` or `null`). -/
inductive DeleteResult where
  | ok (found : Option String)
  | err (e : String)
deriving DecidableEq, Repr

/-- `new Date(record.start_time).getTime()` (`none` models `NaN`). -/
def jsNewDateOfTimeVal : TimeVal → Option Int
  | .vStr s => (jsNewDate s).map getTimeDT
  | .vDate ts => some ts
  | .vNum n => some n
  | .vNone => none

/-- The effective timestamp of `updateRecord`'s
`if (!record.timestamp) record.timestamp = new Date(record.start_time).getTime()`. -/
def updateEffTs (r : Rec) : Option Int :=
  match r.timestamp with
  | some t => if t ≠ 0 then some t else jsNewDateOfTimeVal r.startTime
  | none => jsNewDateOfTimeVal r.startTime

/-- `updateRecord`, relative to a transaction-failure oracle `txFail` over
object-store names.  A put failure rejects the returned promise (the `return
new Promise` escapes the surrounding `try`); a missing partition or table
resolves `false`; success invalidates the query cache before resolving
`true`. -/
def updateRecord (txFail : String → Bool) (st : CMState) (r : Rec) : CMState × UpdateResult :=
  match updateEffTs r with
  | none => (st, .ok false)
  | some t =>
    let pid := partitionIdOfTime t
    match alookup st.partitions pid with
    | none => (st, .ok false)
    | some cfg =>
      match alookup st.tables cfg.storeName with
      | none => (st, .ok false)
      | some rows =>
        if txFail cfg.storeName then (st, .err "store error")
        else
          ({ st with
              tables := aset st.tables cfg.storeName
                (upsertRecord rows { r with timestamp := some t }),
              queryCache := qcInvalidate st.queryCache }, .ok true)

/-- The per-record timestamp fill-in of `updatePartitionBatch`. -/
def normTimestampB (r : Rec) : Rec :=
  let falsy : Bool := match r.timestamp with | none => true | some t => t == 0
  if falsy && jsTruthyTime r.startTime then { r with timestamp := jsNewDateOfTimeVal r.startTime }
  else r

/-- The partition loop of `batchUpdateRecords`: unknown or unmaterialized
partitions are skipped; the first failing partition transaction raises, which
the surrounding `catch` swallows into a resolved `0` (earlier partitions stay
committed, and the cache is NOT invalidated); completion invalidates the cache
once and resolves the count. -/
def batchUpdateGo (txFail : String → Bool) (st : CMState) (count : Nat) :
    List (String × List Rec) → CMState × BatchResult
  | [] => ({ st with queryCache := qcInvalidate st.queryCache }, .ok count)
  | g :: rest =>
    match alookup st.partitions g.1 with
    | none => batchUpdateGo txFail st count rest
    | some cfg =>
      match alookup st.tables cfg.storeName with
      | none => batchUpdateGo txFail st count rest
      | some rows =>
        if txFail cfg.storeName then (st, .ok 0)
        else
          batchUpdateGo txFail
            ({ st with
                tables := aset st.tables cfg.storeName
                  ((g.2.map normTimestampB).foldl upsertRecord rows) })
            (count + g.2.length) rest

/-- `batchUpdateRecords`. -/
def batchUpdateRecords (txFail : String → Bool) (st : CMState) (rs : List Rec) :
    CMState × BatchResult :=
  if rs.isEmpty then (st, .ok 0)
  else batchUpdateGo txFail st 0 (groupRecordsByPartition rs)

/-- `deleteFromPartition`: resolves `false` for an unknown partition or
missing table or absent record, deletes and resolves `true` when found,
rejects on a transaction failure. -/
def deleteFromPartition (txFail : String → Bool) (st : CMState) (pid recordId : String) :
    CMState × Except String Bool :=
  match alookup st.partitions pid with
  | none => (st, .ok false)
  | some cfg =>
    match alookup st.tables cfg.storeName with
    | none => (st, .ok false)
    | some rows =>
      if txFail cfg.storeName then (st, .error "store error")
      else if rows.any (fun x => x.id == some recordId) then
        ({ st with
             tables := aset st.tables cfg.storeName
               (rows.filter (fun x => !(x.id == some recordId))) },
         .ok true)
      else (st, .ok false)

/-- The all-partitions fallback scan of `deleteRecord`. -/
def deleteScan (txFail : String → Bool) (st : CMState) (recordId : String) :
    List String → CMState × DeleteResult
  | [] => (st, .ok none)
  | pid :: rest =>
    match deleteFromPartition txFail st pid recordId with
    | (st1, .ok true) =>
      ({ st1 with queryCache := qcInvalidate st1.queryCache }, .ok (some recordId))
    | (st1, .ok false) => deleteScan txFail st1 recordId rest
    | (st1, .error e) => (st1, .err e)

/-- `deleteRecord`: timestamp-hinted direct partition delete, else a linear
scan over all registered partitions; invalidates the cache exactly when a
record was actually deleted; rethrows store errors. -/
def deleteRecord (txFail : String → Bool) (st : CMState) (recordId : String)
    (recordTimestamp : Option Int) : CMState × DeleteResult :=
  match recordTimestamp with
  | some ts =>
    if ts ≠ 0 then
      match deleteFromPartition txFail st (partitionIdOfTime ts) recordId with
      | (st1, .ok true) =>
        ({ st1 with queryCache := qcInvalidate st1.queryCache }, .ok (some recordId))
      | (st1, .ok false) => deleteScan txFail st1 recordId (st1.partitions.map (fun p => p.1))
      | (st1, .error e) => (st1, .err e)
    else deleteScan txFail st recordId (st.partitions.map (fun p => p.1))
  | none => deleteScan txFail st recordId (st.partitions.map (fun p => p.1))

/-- `parseDate` (`none` models `null`/`NaN`): `Date` objects pass through,
strings go through `parseLocalTime`, numbers are seconds-or-milliseconds
heuristics. -/
def parseDateCM : TimeVal → Option Int
  | .vDate ts => some ts
  | .vStr s => (jsNewDate s).map getTimeDT
  | .vNum n => some (if n > 10000000000 then n else n * 1000)
  | .vNone => none

/-- `getPartitionByDate`: falsy or unparseable start-time values are routed to
the default partition `{currentYear}_Q1` (the partition-registry side effect
is not modelled; the returned key is what the claims concern). -/
def getPartitionByDate (nowYear : Int) (taskDate : TimeVal) : String :=
  if jsFalsyTimeVal taskDate then toString nowYear ++ "_Q1"
  else
    match parseDateCM taskDate with
    | none => toString nowYear ++ "_Q1"
    | some ts => partitionIdOfTime ts


/-! ## Concrete states and records used in counterexamples and witnesses -/

/-- An empty CacheManager: no tables, no registered partitions, fresh cache. -/
def cmEmpty : CMState := ⟨[], [], initQC⟩

/-- A record dated 2024-05-01 (partition `2024_Q2`). -/
def recMay2024 : Rec := ⟨some "7", "p7", .vStr "2024-05-01 10:00:00", none, "正常"⟩

/-- A CacheManager with two materialized partitions (`2024_Q1`, `2024_Q2`) and
one resident query-cache entry (pre-write cached data). -/
def stAB : CMState :=
  ⟨[("satellite_data_2024_Q1", []), ("satellite_data_2024_Q2", [])],
   [("2024_Q1", ⟨"satellite_data_2024_Q1"⟩), ("2024_Q2", ⟨"satellite_data_2024_Q2"⟩)],
   ⟨[("k", ⟨"old", 0, 3, 0⟩)], none, none, 3⟩⟩

/-- A failure oracle under which only the `2024_Q2` store's transactions
fail. -/
def failQ2 : String → Bool := fun s => s == "satellite_data_2024_Q2"

/-- A record dated 2024-02-01 (partition `2024_Q1`). -/
def rQ1 : Rec := ⟨some "a", "p", .vStr "2024-02-01 00:00:00", none, "正常"⟩

/-- A record dated 2024-05-01 (partition `2024_Q2`). -/
def rQ2 : Rec := ⟨some "b", "p", .vStr "2024-05-01 00:00:00", none, "正常"⟩

/-- A two-entry QueryCache state whose second entry is least recently used. -/
def qcStW : QCState :=
  ⟨[("a", ⟨"x", 5, 1, 0⟩), ("b", ⟨"y", 2, 1, 0⟩)], none, none, 2⟩

/-- A 104857601-byte payload, one byte over `maxCacheSize`. -/
def bigStr : String := String.mk (List.replicate 104857601 'a')

/-- The QueryCache state invariant: unique cache keys, the resident byte sum
is bounded by the running counter, and the resident byte sum respects the
100MB ceiling. -/
def QCInv (st : QCState) : Prop :=
  (st.cache.map (fun p => p.1)).Nodup ∧
    (qcResident st : Int) ≤ st.currentCacheSize ∧ qcResident st ≤ maxCacheSize

/-- The group info the cycle engine computes for a millisecond timestamp. -/
def giStar (cfg : CycleConfig) (gt : String) (ts : Int) : GroupInfo :=
  getGroupOfDate cfg (civilFromTime ts) gt

/-- The per-UTC-day `groupInfoCache` key of `addRecordsToBucketBatch`. -/
def ckOf (gt : String) (ts : Int) : String := toString (ts / 86400000) ++ "_" ++ gt

/-- The `groupedData` update of one batch iteration, once the group info is
fixed. -/
def pushGroup (grouped : List (String × GAcc)) (gi : GroupInfo) (r : Rec) (rk : String) :
    List (String × GAcc) :=
  match alookup grouped gi.key with
  | none => grouped ++ [(gi.key, ⟨gi.label, gi.rangeStart, gi.rangeEnd, [r], [rk]⟩)]
  | some g => aset grouped gi.key
      { g with records := g.records ++ [r], recordKeys := addSet g.recordKeys rk }

/-- The bucket a grouped-data entry materialises into. -/
def bktOf (gk : String) (g : GAcc) : Bkt := ⟨gk, g.label, g.records, g.rangeStart, g.rangeEnd⟩

/-- The DataStore state a batch accumulator denotes: its groups as buckets,
plus its live reverse map. -/
def stateOf (acc : BatchAcc) : DSState :=
  ⟨acc.grouped.map (fun p => (p.1, bktOf p.1 p.2)), acc.r2b⟩

/-- The invariant tying a batch accumulator to the sequential loader: unique
group and reverse-map keys, every stored record key resident in the reverse
map, every group's recordKeys pointing back at that group, and every cached
group info being the engine's answer for some record timestamp of the load. -/
def InvA (cfg : CycleConfig) (gt : String) (records : List Rec) (acc : BatchAcc) : Prop :=
  (acc.grouped.map (fun p => p.1)).Nodup ∧
  (acc.r2b.map (fun p => p.1)).Nodup ∧
  (∀ gk g, alookup acc.grouped gk = some g →
    (∀ x ∈ g.records, (alookup acc.r2b (getRecordKey x)).isSome = true) ∧
    (∀ rk ∈ g.recordKeys, alookup acc.r2b rk = some gk)) ∧
  (∀ ck gi, alookup acc.giCache ck = some gi →
    ∃ t r0, r0 ∈ records ∧ batchTs r0 = some t ∧
      ck = toString (t / 86400000) ++ "_" ++ gt ∧
      gi = getGroupOfDate cfg (civilFromTime t) gt)

/-- Day-cache coherence: any two records of the load whose timestamps share a
UTC-day cache key get the same group from the engine.  This is exactly the
assumption under which the batch path's `groupInfoCache` is sound. -/
def giCoherent (cfg : CycleConfig) (gt : String) (records : List Rec) : Prop :=
  ∀ r ∈ records, ∀ r2 ∈ records, ∀ t t2 : Int,
    batchTs r = some t → batchTs r2 = some t2 →
    toString (t / 86400000) = toString (t2 / 86400000) →
    getGroupOfDate cfg (civilFromTime t) gt = getGroupOfDate cfg (civilFromTime t2) gt

/-- Boolean check deciding `giCoherent`. -/
def giCoherentB (cfg : CycleConfig) (gt : String) (records : List Rec) : Bool :=
  records.all (fun r => records.all (fun r2 =>
    match batchTs r, batchTs r2 with
    | some t, some t2 =>
      (toString (t / 86400000) != toString (t2 / 86400000)) ||
        (getGroupOfDate cfg (civilFromTime t) gt == getGroupOfDate cfg (civilFromTime t2) gt)
    | _, _ => true))

/-- A record with start time 2024-01-16 03:00 (before the 06:00 day offset). -/
def rB1 : Rec := ⟨some "1", "p1", .vStr "2024-01-16 03:00:00", none, "正常"⟩

/-- A record with start time 2024-01-16 12:00 (after the 06:00 day offset). -/
def rB2 : Rec := ⟨some "2", "p2", .vStr "2024-01-16 12:00:00", none, "正常"⟩

/-- A record with start time 2024-03-10 09:00. -/
def rW1 : Rec := ⟨some "w1", "p1", .vStr "2024-03-10 09:00:00", none, "正常"⟩

/-- A record with start time 2024-03-11 10:00. -/
def rW2 : Rec := ⟨some "w2", "p2", .vStr "2024-03-11 10:00:00", none, "未跟踪"⟩

instance (cfg : CycleConfig) (gt : String) (records : List Rec) :
    Decidable (giCoherent cfg gt records) :=
  decidable_of_iff (giCoherentB cfg gt records = true) (by
    unfold giCoherentB giCoherent
    rw [List.all_eq_true]
    constructor
    · intro h r hr r2 hr2 t t2 ht ht2 hts
      have h2 := List.all_eq_true.mp (h r hr) r2 hr2
      rw [ht, ht2] at h2
      dsimp only at h2
      rw [Bool.or_eq_true] at h2
      rcases h2 with h2 | h2
      · exact absurd hts (by simpa using h2)
      · exact beq_iff_eq.mp h2
    · intro h r hr
      rw [List.all_eq_true]
      intro r2 hr2
      cases ht : batchTs r with
      | none => rfl
      | some t =>
        cases ht2 : batchTs r2 with
        | none => rfl
        | some t2 =>
          dsimp only
          rw [Bool.or_eq_true]
          by_cases hts : toString (t / 86400000) = toString (t2 / 86400000)
          · exact Or.inr (beq_iff_eq.mpr (h r hr r2 hr2 t t2 ht ht2 hts))
          · exact Or.inl (by simpa using hts))

/-! ## Theorems: calendar arithmetic -/

theorem dayNumber_day (y : Int) (mo : Nat) (d : Int) :
    dayNumber y mo d = dayNumber y mo 1 + (d - 1) := by
  simp only [dayNumber]; ring

theorem leapCount_succ (y : Int) :
    leapCount (y+1) = leapCount y + (if isLeap y then 1 else 0) := by
  simp only [leapCount, isLeap, Bool.or_eq_true, Bool.and_eq_true, beq_iff_eq, bne_iff_ne,
    decide_eq_true_eq]
  split <;> rename_i h <;> omega

theorem dayNumber_next_month (y : Int) (mo : Nat) (h : mo < 11) :
    dayNumber y (mo+1) 1 = dayNumber y mo 1 + daysInMonth y mo := by
  interval_cases mo <;>
    simp only [dayNumber, daysBeforeMonth, daysInMonth] <;>
    cases hl : isLeap y <;> simp [hl] <;> omega

theorem dayNumber_next_year (y : Int) :
    dayNumber (y+1) 0 1 = dayNumber y 11 1 + 31 := by
  have h := leapCount_succ y
  simp only [dayNumber, daysBeforeMonth]
  cases hl : isLeap y <;> simp [hl] at h ⊢ <;> omega

theorem daysInMonth_ge_28 (y : Int) (mo : Nat) : 28 ≤ daysInMonth y mo := by
  unfold daysInMonth
  split <;> (try split) <;> simp

theorem daysInMonth_le_31 (y : Int) (mo : Nat) : daysInMonth y mo ≤ 31 := by
  unfold daysInMonth
  split <;> (try split) <;> simp

theorem dayNumber_mono (y : Int) (mo mo' : Nat) (h : mo ≤ mo') (h' : mo' ≤ 11) :
    dayNumber y mo 1 ≤ dayNumber y mo' 1 := by
  induction mo' with
  | zero => simp_all
  | succ n ih =>
    rcases Nat.lt_or_ge mo (n+1) with hlt | hge
    · have h1 := ih (by omega) (by omega)
      have h2 := dayNumber_next_month y n (by omega)
      have h3 : (0:Int) ≤ daysInMonth y n := Int.ofNat_nonneg _
      omega
    · have hmo : mo = n+1 := by omega
      simp [hmo]

theorem dayNumber_lt_next_year (y : Int) (mo : Nat) (d : Int) (h : mo ≤ 11)
    (hd : d ≤ (daysInMonth y mo : Int)) : dayNumber y mo d < dayNumber (y+1) 0 1 := by
  have h1 := dayNumber_day y mo d
  have h3 := dayNumber_next_year y
  rcases Nat.lt_or_ge mo 11 with hlt | hge
  · have h6 := dayNumber_next_month y mo hlt
    have h8 := dayNumber_mono y (mo+1) 11 (by omega) (le_refl 11)
    omega
  · have hmo : mo = 11 := by omega
    subst hmo
    have h5 : daysInMonth y 11 = 31 := rfl
    omega

theorem dayNumber_lt_month (y : Int) (mo mo' : Nat) (d : Int) (h : mo < mo') (h' : mo' ≤ 11)
    (hd : d ≤ (daysInMonth y mo : Int)) : dayNumber y mo d < dayNumber y mo' 1 := by
  have h1 := dayNumber_day y mo d
  have h6 := dayNumber_next_month y mo (by omega)
  have h8 := dayNumber_mono y (mo+1) mo' (by omega) h'
  omega

theorem mkJsDate_in (y : Int) (mo : Nat) (d : Int) (hd1 : 1 ≤ d)
    (hd2 : d ≤ (daysInMonth y mo : Int)) : mkJsDate y mo d = ⟨y, mo, d.toNat⟩ := by
  unfold mkJsDate
  rw [if_neg (by omega), if_pos hd2]

theorem dayGroup_contains (cfg : CycleConfig) (dt : DT) (hv : ValidDT dt)
    (hc : HMok cfg.dayStart) :
    (getDayGroup cfg dt).rangeStart ≤ getTimeDT dt ∧
      getTimeDT dt < (getDayGroup cfg dt).rangeEnd := by
  obtain ⟨h1, h2, h3, h4, h5, h6⟩ := hv
  obtain ⟨hH, hM⟩ := hc
  simp only [getDayGroup, getTimeDT, todMs]
  split <;> omega

theorem weekGroup_contains (cfg : CycleConfig) (dt : DT) (hv : ValidDT dt)
    (hc : HMok cfg.weekStartTime) (hd0 : 0 ≤ cfg.weekStartDay) (hd6 : cfg.weekStartDay ≤ 6) :
    (getWeekGroup cfg dt).rangeStart ≤ getTimeDT dt ∧
      getTimeDT dt < (getWeekGroup cfg dt).rangeEnd := by
  obtain ⟨h1, h2, h3, h4, h5, h6⟩ := hv
  obtain ⟨hH, hM⟩ := hc
  simp only [getWeekGroup, getTimeDT, todMs]
  split <;> split <;> omega

theorem monthAnchor_in (sd : Int) (y : Int) (mo : Nat) (h1 : 1 ≤ sd) (h2 : sd ≤ 28) :
    monthAnchor sd y mo = ⟨y, mo, sd.toNat⟩ := by
  have hdim : sd ≤ (daysInMonth y mo : Int) := by
    have := daysInMonth_ge_28 y mo; omega
  unfold monthAnchor
  rw [mkJsDate_in y mo sd h1 hdim]
  simp only [if_pos (Int.toNat_of_nonneg (by omega : (0:Int) ≤ sd))]

theorem monthGroup_contains (cfg : CycleConfig) (dt : DT) (hv : ValidDT dt)
    (hc : HMok cfg.monthStartTime) (hsd1 : 1 ≤ cfg.monthStartDate)
    (hsd28 : cfg.monthStartDate ≤ 28) :
    (getMonthGroup cfg dt).rangeStart ≤ getTimeDT dt ∧
      getTimeDT dt < (getMonthGroup cfg dt).rangeEnd := by
  obtain ⟨h1, h2, h3, h4, h5, h6⟩ := hv
  obtain ⟨hH, hM⟩ := hc
  have hsdN : ((cfg.monthStartDate.toNat : Nat) : Int) = cfg.monthStartDate :=
    Int.toNat_of_nonneg (by omega)
  have h3i : (dt.day : Int) ≤ (daysInMonth dt.year dt.month : Int) := by exact_mod_cast h3
  simp only [getMonthGroup, getTimeDT, todMs, monthAnchor_in cfg.monthStartDate _ _ hsd1 hsd28]
  simp only [hsdN]
  split
  · rename_i hge
    dsimp only
    simp only [hsdN] at hge ⊢
    split_ifs with hP
    · have hmo11 : dt.month = 11 := by omega
      rw [hmo11] at h3i hge ⊢
      have k1 := dayNumber_lt_next_year dt.year 11 dt.day (le_refl 11) h3i
      have k2 := dayNumber_day (dt.year + 1) 0 cfg.monthStartDate
      have k3 := dayNumber_day dt.year 11 cfg.monthStartDate
      omega
    · simp only [add_zero]
      have k1 := dayNumber_lt_month dt.year dt.month (dt.month+1) dt.day (by omega) (by omega) h3i
      have k2 := dayNumber_day dt.year (dt.month+1) cfg.monthStartDate
      have k3 := dayNumber_day dt.year dt.month cfg.monthStartDate
      omega
  · rename_i hlt
    dsimp only
    simp only [hsdN] at hlt ⊢
    split_ifs with hm0 hP hP
    · -- month 0, wrap (12 > 11)
      rw [hm0] at hlt ⊢
      rw [show dt.year - 1 + 1 = dt.year from by ring]
      have k1 := dayNumber_lt_next_year (dt.year - 1) 11 cfg.monthStartDate (le_refl 11)
        (by have e : daysInMonth (dt.year - 1) 11 = 31 := rfl; omega)
      rw [show dt.year - 1 + 1 = dt.year from by ring] at k1
      have k2 := dayNumber_day dt.year 0 (dt.day : Int)
      omega
    · omega
    · -- month ≥ 1 but claimed wrap: impossible
      omega
    · rw [show dt.month - 1 + 1 = dt.month from by omega] at hP ⊢
      simp only [add_zero]
      have k1 := dayNumber_lt_month dt.year (dt.month - 1) dt.month cfg.monthStartDate
        (by omega) (by omega) (by have := daysInMonth_ge_28 dt.year (dt.month - 1); omega)
      have k2 := dayNumber_day dt.year dt.month (dt.day : Int)
      omega

theorem quarterGroup_contains (cfg : CycleConfig) (dt : DT) (hv : ValidDT dt)
    (hsm : cfg.quarterStartMonth = 1)
    (hst : parseTimeToHoursMinutes cfg.quarterStartTime = (0, 0)) :
    (getQuarterGroup cfg dt).rangeStart ≤ getTimeDT dt ∧
      getTimeDT dt < (getQuarterGroup cfg dt).rangeEnd := by
  obtain ⟨h1, h2, h3, h4, h5, h6⟩ := hv
  have h3i : (dt.day : Int) ≤ (daysInMonth dt.year dt.month : Int) := by exact_mod_cast h3
  have htod : todMs cfg.quarterStartTime = 0 := by simp [todMs, hst]
  simp only [getQuarterGroup, getTimeDT, hst, hsm, htod]
  interval_cases dt.month
  · have k1 := dayNumber_mono dt.year 0 0 (by norm_num) (by norm_num)
    have k2 := dayNumber_day dt.year 0 (dt.day : Int)
    have k3 := dayNumber_lt_month dt.year 0 3 (dt.day : Int) (by norm_num) (by norm_num) h3i
    norm_num
    try rw [show (Int.toNat 3 : Nat) = 3 from rfl]
    try rw [show (Int.toNat 6 : Nat) = 6 from rfl]
    try rw [show (Int.toNat 9 : Nat) = 9 from rfl]
    split
    · omega
    · exfalso; omega
  · have k1 := dayNumber_mono dt.year 0 1 (by norm_num) (by norm_num)
    have k2 := dayNumber_day dt.year 1 (dt.day : Int)
    have k3 := dayNumber_lt_month dt.year 1 3 (dt.day : Int) (by norm_num) (by norm_num) h3i
    norm_num
    try rw [show (Int.toNat 3 : Nat) = 3 from rfl]
    try rw [show (Int.toNat 6 : Nat) = 6 from rfl]
    try rw [show (Int.toNat 9 : Nat) = 9 from rfl]
    split
    · omega
    · exfalso; omega
  · have k1 := dayNumber_mono dt.year 0 2 (by norm_num) (by norm_num)
    have k2 := dayNumber_day dt.year 2 (dt.day : Int)
    have k3 := dayNumber_lt_month dt.year 2 3 (dt.day : Int) (by norm_num) (by norm_num) h3i
    norm_num
    try rw [show (Int.toNat 3 : Nat) = 3 from rfl]
    try rw [show (Int.toNat 6 : Nat) = 6 from rfl]
    try rw [show (Int.toNat 9 : Nat) = 9 from rfl]
    split
    · omega
    · exfalso; omega
  · have k1 := dayNumber_mono dt.year 3 3 (by norm_num) (by norm_num)
    have k2 := dayNumber_day dt.year 3 (dt.day : Int)
    have k3 := dayNumber_lt_month dt.year 3 6 (dt.day : Int) (by norm_num) (by norm_num) h3i
    norm_num
    try rw [show (Int.toNat 3 : Nat) = 3 from rfl]
    try rw [show (Int.toNat 6 : Nat) = 6 from rfl]
    try rw [show (Int.toNat 9 : Nat) = 9 from rfl]
    split
    · omega
    · exfalso; omega
  · have k1 := dayNumber_mono dt.year 3 4 (by norm_num) (by norm_num)
    have k2 := dayNumber_day dt.year 4 (dt.day : Int)
    have k3 := dayNumber_lt_month dt.year 4 6 (dt.day : Int) (by norm_num) (by norm_num) h3i
    norm_num
    try rw [show (Int.toNat 3 : Nat) = 3 from rfl]
    try rw [show (Int.toNat 6 : Nat) = 6 from rfl]
    try rw [show (Int.toNat 9 : Nat) = 9 from rfl]
    split
    · omega
    · exfalso; omega
  · have k1 := dayNumber_mono dt.year 3 5 (by norm_num) (by norm_num)
    have k2 := dayNumber_day dt.year 5 (dt.day : Int)
    have k3 := dayNumber_lt_month dt.year 5 6 (dt.day : Int) (by norm_num) (by norm_num) h3i
    norm_num
    try rw [show (Int.toNat 3 : Nat) = 3 from rfl]
    try rw [show (Int.toNat 6 : Nat) = 6 from rfl]
    try rw [show (Int.toNat 9 : Nat) = 9 from rfl]
    split
    · omega
    · exfalso; omega
  · have k1 := dayNumber_mono dt.year 6 6 (by norm_num) (by norm_num)
    have k2 := dayNumber_day dt.year 6 (dt.day : Int)
    have k3 := dayNumber_lt_month dt.year 6 9 (dt.day : Int) (by norm_num) (by norm_num) h3i
    norm_num
    try rw [show (Int.toNat 3 : Nat) = 3 from rfl]
    try rw [show (Int.toNat 6 : Nat) = 6 from rfl]
    try rw [show (Int.toNat 9 : Nat) = 9 from rfl]
    split
    · omega
    · exfalso; omega
  · have k1 := dayNumber_mono dt.year 6 7 (by norm_num) (by norm_num)
    have k2 := dayNumber_day dt.year 7 (dt.day : Int)
    have k3 := dayNumber_lt_month dt.year 7 9 (dt.day : Int) (by norm_num) (by norm_num) h3i
    norm_num
    try rw [show (Int.toNat 3 : Nat) = 3 from rfl]
    try rw [show (Int.toNat 6 : Nat) = 6 from rfl]
    try rw [show (Int.toNat 9 : Nat) = 9 from rfl]
    split
    · omega
    · exfalso; omega
  · have k1 := dayNumber_mono dt.year 6 8 (by norm_num) (by norm_num)
    have k2 := dayNumber_day dt.year 8 (dt.day : Int)
    have k3 := dayNumber_lt_month dt.year 8 9 (dt.day : Int) (by norm_num) (by norm_num) h3i
    norm_num
    try rw [show (Int.toNat 3 : Nat) = 3 from rfl]
    try rw [show (Int.toNat 6 : Nat) = 6 from rfl]
    try rw [show (Int.toNat 9 : Nat) = 9 from rfl]
    split
    · omega
    · exfalso; omega
  · have k1 := dayNumber_mono dt.year 9 9 (by norm_num) (by norm_num)
    have k2 := dayNumber_day dt.year 9 (dt.day : Int)
    have k3 := dayNumber_lt_next_year dt.year 9 (dt.day : Int) (by norm_num) h3i
    norm_num
    try rw [show (Int.toNat 3 : Nat) = 3 from rfl]
    try rw [show (Int.toNat 6 : Nat) = 6 from rfl]
    try rw [show (Int.toNat 9 : Nat) = 9 from rfl]
    split
    · omega
    · exfalso; omega
  · have k1 := dayNumber_mono dt.year 9 10 (by norm_num) (by norm_num)
    have k2 := dayNumber_day dt.year 10 (dt.day : Int)
    have k3 := dayNumber_lt_next_year dt.year 10 (dt.day : Int) (by norm_num) h3i
    norm_num
    try rw [show (Int.toNat 3 : Nat) = 3 from rfl]
    try rw [show (Int.toNat 6 : Nat) = 6 from rfl]
    try rw [show (Int.toNat 9 : Nat) = 9 from rfl]
    split
    · omega
    · exfalso; omega
  · have k1 := dayNumber_mono dt.year 9 11 (by norm_num) (by norm_num)
    have k2 := dayNumber_day dt.year 11 (dt.day : Int)
    have k3 := dayNumber_lt_next_year dt.year 11 (dt.day : Int) (by norm_num) h3i
    norm_num
    try rw [show (Int.toNat 3 : Nat) = 3 from rfl]
    try rw [show (Int.toNat 6 : Nat) = 6 from rfl]
    try rw [show (Int.toNat 9 : Nat) = 9 from rfl]
    split
    · omega
    · exfalso; omega

/-! ## Claim C1 -/

/-- Claim C1 (amended): for every valid date, the group returned by
`getGroup` is a half-open range containing the date — for cycle types day and
week under any valid configuration, for month when the configured start
day-of-month is at most 28 (larger values hit the source's broken
end-of-month clamp), and for quarter under the default configuration
(`startMonth = 1`, `startTime = "00:00"`; other legal quarter configurations
hit the year-offset anchor and the `3*30`-day rollback). -/
theorem c1_getGroup_range_contains (cfg : CycleConfig) (dt : DT) (T : String)
    (hdt : ValidDT dt) (hok : AmendedCycleOK cfg T) :
    (getGroupOfDate cfg dt T).rangeStart ≤ getTimeDT dt ∧
      getTimeDT dt < (getGroupOfDate cfg dt T).rangeEnd := by
  by_cases h1 : T = "day"
  · subst h1
    simp only [AmendedCycleOK, reduceIte] at hok
    simp only [getGroupOfDate, reduceIte]
    exact dayGroup_contains cfg dt hdt hok
  by_cases h2 : T = "week"
  · subst h2
    simp only [AmendedCycleOK, reduceIte] at hok
    simp only [getGroupOfDate, reduceIte]
    exact weekGroup_contains cfg dt hdt hok.1 hok.2.1 hok.2.2
  by_cases h3 : T = "month"
  · subst h3
    simp only [AmendedCycleOK, reduceIte] at hok
    simp only [getGroupOfDate, reduceIte]
    exact monthGroup_contains cfg dt hdt hok.1 hok.2.1 hok.2.2
  by_cases h4 : T = "quarter"
  · subst h4
    simp only [AmendedCycleOK, reduceIte] at hok
    simp only [getGroupOfDate, reduceIte]
    exact quarterGroup_contains cfg dt hdt hok.1 hok.2
  · exfalso
    simp only [AmendedCycleOK] at hok
    rw [if_neg h1, if_neg h2, if_neg h3, if_neg h4] at hok
    exact hok

/-- Claim C1 counterexample: under the spec-legal configuration
`quarter.startMonth = 4` (`startTime` left at its default), the valid instant
2024-02-15 00:00 lies outside the range `getGroup` computes for cycle type
quarter — the code anchors the cycle at 2023-04-01 and ends it at 2023-07-01,
both far before the instant. -/
theorem c1_cex_quarter_startMonth4 :
    ValidDT ⟨2024, 1, 15, 0, 0, 0⟩ ∧
      ¬ ((getGroupOfDate cfgQuarterApril ⟨2024, 1, 15, 0, 0, 0⟩ "quarter").rangeStart ≤
            getTimeDT ⟨2024, 1, 15, 0, 0, 0⟩ ∧
          getTimeDT ⟨2024, 1, 15, 0, 0, 0⟩ <
            (getGroupOfDate cfgQuarterApril ⟨2024, 1, 15, 0, 0, 0⟩ "quarter").rangeEnd) := by
  decide

/-- Witness for C1's amended theorem at a concrete valid input. -/
theorem c1_witness :
    ValidDT ⟨2024, 0, 15, 12, 0, 0⟩ ∧ AmendedCycleOK defaultConfig "day" ∧
      ((getGroupOfDate defaultConfig ⟨2024, 0, 15, 12, 0, 0⟩ "day").rangeStart ≤
          getTimeDT ⟨2024, 0, 15, 12, 0, 0⟩ ∧
        getTimeDT ⟨2024, 0, 15, 12, 0, 0⟩ <
          (getGroupOfDate defaultConfig ⟨2024, 0, 15, 12, 0, 0⟩ "day").rangeEnd) :=
  ⟨by decide, by decide,
    c1_getGroup_range_contains defaultConfig ⟨2024, 0, 15, 12, 0, 0⟩ "day"
      (by decide) (by decide)⟩

/-! ## Claim C6 -/

/-- Claim C6: with day-start offset `06:00`, the instants 2024-01-15 23:30 and
2024-01-16 00:10 are assigned to the bucket keyed `2024-01-15`, which spans
2024-01-15 06:00 to 2024-01-16 06:00, and 2024-01-16 12:00 is assigned to the
bucket keyed `2024-01-16`, which starts at 2024-01-16 06:00. -/
theorem c6_day_offset_0600_scenario :
    (getGroupOfDate cfgDay0600 ⟨2024, 0, 15, 23, 30, 0⟩ "day").key = "2024-01-15" ∧
      (getGroupOfDate cfgDay0600 ⟨2024, 0, 16, 0, 10, 0⟩ "day").key = "2024-01-15" ∧
      (getGroupOfDate cfgDay0600 ⟨2024, 0, 16, 12, 0, 0⟩ "day").key = "2024-01-16" ∧
      (getGroupOfDate cfgDay0600 ⟨2024, 0, 15, 23, 30, 0⟩ "day").rangeStart =
        getTimeDT ⟨2024, 0, 15, 6, 0, 0⟩ ∧
      (getGroupOfDate cfgDay0600 ⟨2024, 0, 15, 23, 30, 0⟩ "day").rangeEnd =
        getTimeDT ⟨2024, 0, 16, 6, 0, 0⟩ ∧
      getGroupOfDate cfgDay0600 ⟨2024, 0, 16, 0, 10, 0⟩ "day" =
        getGroupOfDate cfgDay0600 ⟨2024, 0, 15, 23, 30, 0⟩ "day" ∧
      (getGroupOfDate cfgDay0600 ⟨2024, 0, 16, 12, 0, 0⟩ "day").rangeStart =
        getTimeDT ⟨2024, 0, 16, 6, 0, 0⟩ := by
  decide

/-! ## Claim C9 -/

/-- Claim C9: `getGroup` returns the distinguished error `无效的日期` exactly
when the validated date of its argument is invalid (an invalid `Date` object
or an unparseable string), and on a valid date it always returns the computed
group — an invalid date is never silently mapped to a default bucket. -/
theorem c9_getGroup_invalid_date_error (cfg : CycleConfig) (arg : JSDateArg) (gt : String) :
    (coerceDateArg arg = none → getGroup cfg arg gt = .error "无效的日期") ∧
      (∀ dt, coerceDateArg arg = some dt →
        getGroup cfg arg gt = .ok (getGroupOfDate cfg dt gt)) := by
  constructor
  · intro h
    simp [getGroup, h]
  · intro dt h
    simp [getGroup, h]

/-- Witness for C9 at concrete arguments: an unparseable string errors, a
valid date object succeeds. -/
theorem c9_witness :
    getGroup defaultConfig (.jsStr "not-a-date") "day" = .error "无效的日期" ∧
      getGroup defaultConfig (.jsDate (some ⟨2024, 0, 15, 0, 0, 0⟩)) "day" =
        .ok (getGroupOfDate defaultConfig ⟨2024, 0, 15, 0, 0, 0⟩ "day") :=
  ⟨(c9_getGroup_invalid_date_error defaultConfig (.jsStr "not-a-date") "day").1 (by decide),
   (c9_getGroup_invalid_date_error defaultConfig
      (.jsDate (some ⟨2024, 0, 15, 0, 0, 0⟩)) "day").2 _ rfl⟩

/-! ## Claim C5 -/

/-- Claim C5: `calculateSuccessRate(results, total)` equals 100 times the
number of success-for-rate results divided by `total`, rounded to 3 decimal
places; it is exactly 0 whenever `total ≤ 0`; and on Scenario D
(`['正常','未跟踪','因设备故障失败']`, 3) it returns 66.667. -/
theorem c5_calculateSuccessRate (results : List String) (total : Int) :
    (0 < total → calculateSuccessRate results total =
      toFixed3 (100 * ((results.filter isSuccessForRate).length : ℚ) / (total : ℚ))) ∧
      (total ≤ 0 → calculateSuccessRate results total = 0) ∧
      calculateSuccessRate ["正常", "未跟踪", "因设备故障失败"] 3 = 66667 / 1000 := by
  refine ⟨?_, ?_, ?_⟩
  · intro h
    simp only [calculateSuccessRate, if_neg (by omega : ¬ total ≤ 0)]
    congr 1
    ring
  · intro h
    simp [calculateSuccessRate, h]
  · have hf : (["正常", "未跟踪", "因设备故障失败"].filter isSuccessForRate).length = 2 := by
      decide
    simp only [calculateSuccessRate, if_neg (by norm_num : ¬ (3:Int) ≤ 0), hf, toFixed3]
    norm_num [Int.floor_eq_iff]

/-- Witness for C5. -/
theorem c5_witness :
    calculateSuccessRate ["正常"] 2 = 50 ∧ calculateSuccessRate [] (-1) = 0 := by
  constructor
  · rw [(c5_calculateSuccessRate ["正常"] 2).1 (by norm_num)]
    have hf : ((["正常"] : List String).filter isSuccessForRate).length = 1 := by decide
    rw [hf]
    norm_num [toFixed3, Int.floor_eq_iff]
  · exact (c5_calculateSuccessRate [] (-1)).2.1 (by norm_num)

/-! ## Claim C10 -/

/-- Claim C10: `getPartitionByDate` never fails — for a missing, falsy, or
unparseable start-time value it returns the default partition key
`{currentYear}_Q1`, and for a parseable one the year/quarter partition of its
timestamp. -/
theorem c10_getPartitionByDate_default (nowYear : Int) (tv : TimeVal) :
    (jsFalsyTimeVal tv = true ∨ parseDateCM tv = none →
      getPartitionByDate nowYear tv = toString nowYear ++ "_Q1") ∧
      (∀ ts, jsFalsyTimeVal tv = false → parseDateCM tv = some ts →
        getPartitionByDate nowYear tv = partitionIdOfTime ts) := by
  constructor
  · rintro (h | h)
    · simp [getPartitionByDate, h]
    · by_cases hf : jsFalsyTimeVal tv <;> simp [getPartitionByDate, hf, h]
  · intro ts h1 h2
    simp [getPartitionByDate, h1, h2]

/-- Witness for C10. -/
theorem c10_witness :
    getPartitionByDate 2025 .vNone = "2025_Q1" ∧
      getPartitionByDate 2025 (.vStr "garbage") = "2025_Q1" ∧
      getPartitionByDate 2025 (.vStr "2024-05-10 08:30:00") =
        partitionIdOfTime (getTimeDT ⟨2024, 4, 10, 8, 30, 0⟩) :=
  ⟨(c10_getPartitionByDate_default 2025 .vNone).1 (Or.inl (by decide)),
   (c10_getPartitionByDate_default 2025 (.vStr "garbage")).1 (Or.inr (by decide)),
   (c10_getPartitionByDate_default 2025 (.vStr "2024-05-10 08:30:00")).2
     (getTimeDT ⟨2024, 4, 10, 8, 30, 0⟩) (by decide) (by decide)⟩

/-! ## Association-list lemmas -/

theorem alookup_cons {α : Type} (x : String × α) (xs : List (String × α)) (k : String) :
    alookup (x :: xs) k = if x.1 == k then some x.2 else alookup xs k := by
  by_cases h : x.1 == k <;> simp [alookup, List.find?, h]

theorem alookup_isSome_iff_any {α : Type} (l : List (String × α)) (k : String) :
    (alookup l k).isSome = true ↔ (l.any (fun p => p.1 == k)) = true := by
  induction l with
  | nil => simp [alookup]
  | cons x xs ih =>
    rw [alookup_cons, List.any_cons]
    by_cases h : x.1 == k
    · simp [h]
    · simp only [if_neg h, Bool.or_eq_true]
      constructor
      · intro hs
        exact Or.inr (ih.mp hs)
      · rintro (hc | hs)
        · exact absurd hc h
        · exact ih.mpr hs

theorem mem_keys_iff_any {α : Type} (l : List (String × α)) (k : String) :
    (l.any (fun p => p.1 == k)) = true ↔ k ∈ l.map (fun p => p.1) := by
  induction l with
  | nil => simp
  | cons x xs ih =>
    simp only [List.any_cons, List.map_cons, List.mem_cons, Bool.or_eq_true, beq_iff_eq, ih]
    constructor
    · rintro (h | h)
      · exact Or.inl h.symm
      · exact Or.inr h
    · rintro (h | h)
      · exact Or.inl h.symm
      · exact Or.inr h

theorem map_update_keys {α : Type} (l : List (String × α)) (k : String) (v : α) :
    (l.map (fun p => if p.1 == k then (k, v) else p)).map (fun p => p.1) =
      l.map (fun p => p.1) := by
  rw [List.map_map]
  apply List.map_congr_left
  intro p _
  by_cases hx : p.1 == k
  · simp [Function.comp, hx, (beq_iff_eq.mp hx).symm]
  · simp [Function.comp, hx]

theorem map_update_of_not_mem {α : Type} (l : List (String × α)) (k : String) (v : α)
    (h : ¬ k ∈ l.map (fun p => p.1)) :
    l.map (fun p => if p.1 == k then (k, v) else p) = l := by
  have hp : ∀ p ∈ l, (if p.1 == k then (k, v) else p) = p := by
    intro p hpl
    have : ¬ (p.1 == k) = true := by
      intro hb
      exact h ((beq_iff_eq.mp hb) ▸ List.mem_map_of_mem (fun q => q.1) hpl)
    simp [this]
  calc l.map (fun p => if p.1 == k then (k, v) else p) = l.map id := List.map_congr_left hp
    _ = l := List.map_id l

theorem aset_keys_of_mem {α : Type} (l : List (String × α)) (k : String) (v : α)
    (h : (l.any (fun p => p.1 == k)) = true) :
    (aset l k v).map (fun p => p.1) = l.map (fun p => p.1) := by
  simp only [aset, h, if_true]
  exact map_update_keys l k v

theorem aset_of_not_any {α : Type} (l : List (String × α)) (k : String) (v : α)
    (h : (l.any (fun p => p.1 == k)) = false) : aset l k v = l ++ [(k, v)] := by
  simp [aset, h]

theorem sum_aset_append (gs : List (String × List Rec)) (k : String) (l : List Rec) (r : Rec)
    (hl : alookup gs k = some l) (hnd : (gs.map (fun p => p.1)).Nodup) :
    ((aset gs k (l ++ [r])).map (fun p => p.2.length)).sum =
      ((gs.map (fun p => p.2.length)).sum) + 1 := by
  have hsome : (alookup gs k).isSome = true := by simp [hl]
  have hany := (alookup_isSome_iff_any gs k).mp hsome
  simp only [aset, hany, if_true]
  induction gs with
  | nil => simp [alookup] at hl
  | cons x xs ih =>
    rw [alookup_cons] at hl
    by_cases hx : x.1 == k
    · have hk : x.1 = k := beq_iff_eq.mp hx
      have hxv : x.2 = l := by simp [hx] at hl; exact hl
      have hnot : ¬ k ∈ xs.map (fun p => p.1) := by
        simp only [List.map_cons, List.nodup_cons] at hnd
        exact hk ▸ hnd.1
      simp only [List.map_cons, if_pos hx, map_update_of_not_mem xs k (l ++ [r]) hnot]
      simp [hxv]
      omega
    · simp only [if_neg hx] at hl
      have hnd' : (xs.map (fun p => p.1)).Nodup := by
        simp only [List.map_cons, List.nodup_cons] at hnd
        exact hnd.2
      have hsome' : (alookup xs k).isSome = true := by simp [hl]
      have hany' := (alookup_isSome_iff_any xs k).mp hsome'
      have := ih hl hnd' hsome' hany'
      simp only [List.map_cons, if_neg hx]
      simp at this ⊢
      omega

theorem groupStepCM_inv (gs : List (String × List Rec)) (r : Rec)
    (hnd : (gs.map (fun p => p.1)).Nodup) :
    ((groupStepCM gs r).map (fun p => p.1)).Nodup ∧
      ((groupStepCM gs r).map (fun p => p.2.length)).sum =
        ((gs.map (fun p => p.2.length)).sum) + (if (recEffTs r).isSome then 1 else 0) := by
  unfold groupStepCM
  match h : recEffTs r with
  | none => simp [hnd]
  | some ts =>
    simp only [h, Option.isSome_some, if_true]
    set pid := partitionIdOfTime ts with hpid
    match hl : alookup gs pid with
    | none =>
      have hany : (gs.any (fun p => p.1 == pid)) = false := by
        cases hb : (gs.any (fun p => p.1 == pid)) with
        | false => rfl
        | true =>
          have := (alookup_isSome_iff_any gs pid).mpr hb
          rw [hl] at this
          simp at this
      have hnm : ¬ pid ∈ gs.map (fun p => p.1) := by
        intro hm
        rw [(mem_keys_iff_any gs pid).mpr hm] at hany
        simp at hany
      constructor
      · simp only [List.map_append, List.map_cons, List.map_nil]
        rw [List.nodup_append]
        refine ⟨hnd, by simp, ?_⟩
        intro a ha
        simp only [List.mem_singleton]
        intro hb
        subst hb
        exact hnm ha
      · simp
    | some l =>
      have hany := (alookup_isSome_iff_any gs pid).mp (by simp [hl])
      constructor
      · rw [aset_keys_of_mem gs pid (l ++ [r]) hany]
        exact hnd
      · exact sum_aset_append gs pid l r hl hnd

theorem groupFold_inv (rs : List Rec) (gs : List (String × List Rec))
    (hnd : (gs.map (fun p => p.1)).Nodup) :
    ((rs.foldl groupStepCM gs).map (fun p => p.1)).Nodup ∧
      ((rs.foldl groupStepCM gs).map (fun p => p.2.length)).sum =
        ((gs.map (fun p => p.2.length)).sum) +
          (rs.filter (fun r => (recEffTs r).isSome)).length := by
  induction rs generalizing gs with
  | nil => simp [hnd]
  | cons r rest ih =>
    simp only [List.foldl_cons]
    obtain ⟨hnd1, hsum1⟩ := groupStepCM_inv gs r hnd
    obtain ⟨hnd2, hsum2⟩ := ih (groupStepCM gs r) hnd1
    refine ⟨hnd2, ?_⟩
    rw [hsum2, hsum1, List.filter_cons]
    by_cases h : (recEffTs r).isSome
    · simp only [h, if_true, List.length_cons]
      omega
    · simp only [h, if_false, Bool.false_eq_true]
      omega

theorem groupRecords_sum (rs : List Rec) :
    ((groupRecordsByPartition rs).map (fun p => p.2.length)).sum =
      (rs.filter (fun r => (recEffTs r).isSome)).length := by
  have := groupFold_inv rs [] (by simp)
  simpa [groupRecordsByPartition] using this.2

theorem sum_filter_split (l : List (String × List Rec)) (p : String × List Rec → Bool) :
    ((l.filter p).map (fun q => q.2.length)).sum +
      ((l.filter (fun a => !(p a))).map (fun q => q.2.length)).sum =
      (l.map (fun q => q.2.length)).sum := by
  induction l with
  | nil => simp
  | cons x xs ih =>
    by_cases h : p x <;> (simp [List.filter_cons, h]; omega)

theorem registerPartition_tables (st : CMState) (pid : String) :
    (registerPartition st pid).tables = st.tables := by
  unfold registerPartition
  split
  · rfl
  · split <;> rfl

theorem registerFold_tables (pids : List String) (st : CMState) :
    (pids.foldl registerPartition st).tables = st.tables := by
  induction pids generalizing st with
  | nil => rfl
  | cons p rest ih => rw [List.foldl_cons, ih, registerPartition_tables]

theorem writeToPartitionTables_keys (groups : List (String × List Rec)) (st : CMState) :
    ((writeToPartitionTables st groups).tables.map (fun p => p.1)) =
      st.tables.map (fun p => p.1) := by
  unfold writeToPartitionTables
  induction groups generalizing st with
  | nil => rfl
  | cons g rest ih =>
    rw [List.foldl_cons]
    by_cases he : g.2.isEmpty
    · rw [if_pos he]
      exact ih st
    · rw [if_neg he]
      match hp : alookup st.partitions g.1 with
      | none =>
        dsimp only
        exact ih st
      | some cfg =>
        dsimp only
        match ht : alookup st.tables cfg.storeName with
        | none =>
          dsimp only
          exact ih st
        | some rows =>
          dsimp only
          rw [ih]
          have hany := (alookup_isSome_iff_any st.tables cfg.storeName).mp (by simp [ht])
          exact aset_keys_of_mem st.tables cfg.storeName (g.2.foldl upsertRecord rows) hany

/-! ## Claim C7 -/

/-- Claim C7 (amended): `appendData`'s returned `writtenCount` counts every
record with a derivable timestamp — including the records routed to newly
registered partitions, which are only written by the un-awaited background
task (at the moment the promise resolves, no new table exists yet).  The
original claim (count restricted to synchronously-written existing-partition
records) is refuted by `c7_cex_async_records_counted`. -/
theorem c7_appendData_count (st : CMState) (rs : List Rec) :
    (appendData st rs).returned = (rs.filter (fun r => (recEffTs r).isSome)).length ∧
      (∀ pid ∈ (appendData st rs).asyncPartitions, alookup st.partitions pid = none) ∧
      ((appendData st rs).state.tables.map (fun p => p.1) = st.tables.map (fun p => p.1)) := by
  unfold appendData
  by_cases he : rs.isEmpty
  · rw [if_pos he]
    have hrs : rs = [] := List.isEmpty_iff.mp he
    subst hrs
    simp
  · rw [if_neg he]
    refine ⟨?_, ?_, ?_⟩
    · dsimp only
      have h1 := sum_filter_split (groupRecordsByPartition rs)
        (fun p => (((groupRecordsByPartition rs).map (fun q => q.1)).filter
          (fun pid => (alookup st.partitions pid).isNone)).contains p.1)
      have h2 := groupRecords_sum rs
      omega
    · dsimp only
      intro pid hmem
      have := List.of_mem_filter hmem
      simpa using this
    · dsimp only
      split
      · rw [registerFold_tables]
      · rw [writeToPartitionTables_keys, registerFold_tables]

/-- Claim C7 counterexample: on an empty store, appending one 2024-05-01
record reports `writtenCount = 1` even though no table has been written when
the promise resolves — the record is written only by the background task. -/
theorem c7_cex_async_records_counted :
    (appendData cmEmpty [recMay2024]).returned = 1 ∧
      (appendData cmEmpty [recMay2024]).state.tables = [] ∧
      (appendData cmEmpty [recMay2024]).asyncPartitions = ["2024_Q2"] ∧
      alookup (appendData cmEmpty [recMay2024]).asyncState.tables "satellite_data_2024_Q2" =
        some [recMay2024] := by
  decide

/-- Witness for C7's amended theorem at a concrete input. -/
theorem c7_witness :
    (appendData cmEmpty [recMay2024]).returned =
        ([recMay2024].filter (fun r => (recEffTs r).isSome)).length ∧
      alookup cmEmpty.partitions "2024_Q2" = none :=
  ⟨(c7_appendData_count cmEmpty [recMay2024]).1,
   (c7_appendData_count cmEmpty [recMay2024]).2.1 "2024_Q2" (by decide)⟩

/-! ## Claims C3 and C8 -/

theorem batchUpdateGo_cache_of_nofail (txFail : String → Bool) (hf : ∀ n, txFail n = false)
    (groups : List (String × List Rec)) (st : CMState) (count : Nat) :
    (batchUpdateGo txFail st count groups).1.queryCache = initQC := by
  induction groups generalizing st count with
  | nil => rfl
  | cons g rest ih =>
    unfold batchUpdateGo
    match hp : alookup st.partitions g.1 with
    | none =>
      dsimp only
      exact ih st count
    | some cfg =>
      dsimp only
      match ht : alookup st.tables cfg.storeName with
      | none =>
        dsimp only
        exact ih st count
      | some rows =>
        dsimp only
        rw [if_neg (by simp [hf])]
        exact ih _ _

theorem batchUpdateGo_resolves (txFail : String → Bool)
    (groups : List (String × List Rec)) (st : CMState) (count : Nat) :
    ∃ n, (batchUpdateGo txFail st count groups).2 = .ok n := by
  induction groups generalizing st count with
  | nil => exact ⟨count, rfl⟩
  | cons g rest ih =>
    unfold batchUpdateGo
    match hp : alookup st.partitions g.1 with
    | none =>
      dsimp only
      exact ih st count
    | some cfg =>
      dsimp only
      match ht : alookup st.tables cfg.storeName with
      | none =>
        dsimp only
        exact ih st count
      | some rows =>
        dsimp only
        by_cases hfl : txFail cfg.storeName
        · rw [if_pos hfl]
          exact ⟨0, rfl⟩
        · rw [if_neg hfl]
          exact ih _ _

theorem deleteScan_cache_of_found (txFail : String → Bool) (recordId : String) (r : String)
    (pids : List String) (st : CMState)
    (h : (deleteScan txFail st recordId pids).2 = .ok (some r)) :
    (deleteScan txFail st recordId pids).1.queryCache = initQC := by
  induction pids generalizing st with
  | nil => simp [deleteScan] at h
  | cons pid rest ih =>
    unfold deleteScan at h ⊢
    match hd : deleteFromPartition txFail st pid recordId with
    | (st1, .ok true) => rfl
    | (st1, .ok false) =>
      rw [hd] at h
      exact ih st1 h
    | (st1, .error e) =>
      rw [hd] at h
      simp at h

/-- Claim C3 (amended): whenever a write operation actually completes its
write path — `updateRecord` resolving `true`, `batchUpdateRecords` running
with no underlying store failure on a nonempty batch, or `deleteRecord`
resolving a deleted record id — all three QueryCache layers are cleared (the
cache equals a fresh one) before the promise resolves, and a subsequent
cache probe on the cleared cache returns nothing.  The original claim fails
when a store transaction fails mid-batch: see the counterexample. -/
theorem c3_invalidation_amended (txFail : String → Bool) (st : CMState) :
    (∀ r, (updateRecord txFail st r).2 = .ok true →
        (updateRecord txFail st r).1.queryCache = initQC) ∧
      (∀ rs, rs ≠ [] → (∀ n, txFail n = false) →
        (batchUpdateRecords txFail st rs).1.queryCache = initQC) ∧
      (∀ recordId ts r, (deleteRecord txFail st recordId ts).2 = .ok (some r) →
        (deleteRecord txFail st recordId ts).1.queryCache = initQC) ∧
      (∀ s e o n, (qcGet initQC s e o n).2 = none) ∧
      initQC.hotDataCache = none ∧ initQC.fullDataCache = none := by
  refine ⟨?_, ?_, ?_, ?_, rfl, rfl⟩
  · intro r h
    unfold updateRecord at h ⊢
    match hts : updateEffTs r with
    | none =>
      rw [hts] at h
      dsimp only at h
      simp at h
    | some t =>
      rw [hts] at h
      dsimp only at h ⊢
      match hp : alookup st.partitions (partitionIdOfTime t) with
      | none =>
        rw [hp] at h
        dsimp only at h
        simp at h
      | some cfg =>
        rw [hp] at h
        dsimp only at h ⊢
        match htb : alookup st.tables cfg.storeName with
        | none =>
          rw [htb] at h
          dsimp only at h
          simp at h
        | some rows =>
          rw [htb] at h
          dsimp only at h ⊢
          by_cases hf : txFail cfg.storeName
          · rw [if_pos hf] at h
            simp at h
          · rw [if_neg hf]
            rfl
  · intro rs hne hf
    unfold batchUpdateRecords
    rw [if_neg (by simpa using hne)]
    exact batchUpdateGo_cache_of_nofail txFail hf _ st 0
  · intro recordId ts r h
    unfold deleteRecord at h ⊢
    match ts with
    | none =>
      dsimp only at h ⊢
      exact deleteScan_cache_of_found txFail recordId r _ st h
    | some t =>
      dsimp only at h ⊢
      by_cases hzero : t ≠ 0
      · rw [if_pos hzero] at h ⊢
        match hd : deleteFromPartition txFail st (partitionIdOfTime t) recordId with
        | (st1, .ok true) => rfl
        | (st1, .ok false) =>
          rw [hd] at h
          exact deleteScan_cache_of_found txFail recordId r _ st1 h
        | (st1, .error e) =>
          rw [hd] at h
          simp at h
      · rw [if_neg hzero] at h ⊢
        exact deleteScan_cache_of_found txFail recordId r _ st h
  · intro s e o n
    rfl

/-- Claim C3 counterexample: with the `2024_Q2` store failing, a two-record
batch resolves (with 0) after committing the `2024_Q1` record, yet the
pre-write query-cache entry is still resident — a subsequent read can be
served stale pre-write data. -/
theorem c3_cex_partial_batch_keeps_stale_cache :
    (batchUpdateRecords failQ2 stAB [rQ1, rQ2]).2 = .ok 0 ∧
      (batchUpdateRecords failQ2 stAB [rQ1, rQ2]).1.tables ≠ stAB.tables ∧
      (batchUpdateRecords failQ2 stAB [rQ1, rQ2]).1.queryCache.cache = stAB.queryCache.cache ∧
      stAB.queryCache.cache ≠ [] := by
  decide

/-- Witness for C3's amended theorem at a concrete input. -/
theorem c3_witness :
    (updateRecord (fun _ => false) stAB rQ2).1.queryCache = initQC :=
  (c3_invalidation_amended (fun _ => false) stAB).1 rQ2 (by decide)

/-- Claim C8 (amended): a genuine store-write failure makes `updateRecord`
reject with a descriptive error, but `batchUpdateRecords` always resolves
with a count — its `catch` swallows the failure into a resolved `0`.  The
original claim (both reject) is refuted by `c8_cex_batch_swallows_failure`. -/
theorem c8_failure_surfacing_amended (txFail : String → Bool) (st : CMState) :
    (∀ r t cfg rows, updateEffTs r = some t →
        alookup st.partitions (partitionIdOfTime t) = some cfg →
        alookup st.tables cfg.storeName = some rows →
        txFail cfg.storeName = true →
        (updateRecord txFail st r).2 = .err "store error") ∧
      (∀ rs, ∃ n, (batchUpdateRecords txFail st rs).2 = .ok n) := by
  constructor
  · intro r t cfg rows hts hp htb hf
    unfold updateRecord
    rw [hts]
    dsimp only
    rw [hp]
    dsimp only
    rw [htb]
    dsimp only
    rw [if_pos hf]
  · intro rs
    unfold batchUpdateRecords
    by_cases he : rs.isEmpty
    · rw [if_pos he]
      exact ⟨0, rfl⟩
    · rw [if_neg he]
      exact batchUpdateGo_resolves txFail _ st 0

/-- Claim C8 counterexample: the `2024_Q2` partition is registered and
materialized and its store genuinely fails, yet `batchUpdateRecords` resolves
with the falsy count 0 instead of rejecting. -/
theorem c8_cex_batch_swallows_failure :
    failQ2 "satellite_data_2024_Q2" = true ∧
      (alookup stAB.partitions "2024_Q2") = some ⟨"satellite_data_2024_Q2"⟩ ∧
      (alookup stAB.tables "satellite_data_2024_Q2").isSome = true ∧
      (batchUpdateRecords failQ2 stAB [rQ2]).2 = .ok 0 := by
  decide

/-- Witness for C8's amended theorem at a concrete input. -/
theorem c8_witness :
    (updateRecord failQ2 stAB rQ2).2 = .err "store error" :=
  (c8_failure_surfacing_amended failQ2 stAB).1 rQ2 (getTimeDT ⟨2024, 4, 1, 0, 0, 0⟩)
    ⟨"satellite_data_2024_Q2"⟩ [] (by decide) (by decide) (by decide) (by decide)

/-! ## QueryCache lemmas -/

theorem resident_aremove (l : List (String × QCEntry)) (k : String) (e : QCEntry)
    (h : alookup l k = some e) :
    ((l.map (fun p => p.2.size)).sum) = (((aremove l k).map (fun p => p.2.size)).sum) + e.size := by
  induction l with
  | nil => simp [alookup] at h
  | cons x xs ih =>
    rw [alookup_cons] at h
    by_cases hx : x.1 == k
    · rw [if_pos hx] at h
      have : x.2 = e := by simpa using h
      simp [aremove, hx, this]
      omega
    · rw [if_neg hx] at h
      have := ih h
      simp [aremove, hx]
      omega

theorem aremove_keys_sublist {α : Type} (l : List (String × α)) (k : String) :
    ((aremove l k).map (fun p => p.1)).Sublist (l.map (fun p => p.1)) := by
  induction l with
  | nil => simp [aremove]
  | cons x xs ih =>
    by_cases hx : x.1 == k
    · simp only [aremove, hx, if_true, List.map_cons]
      exact (List.sublist_cons_self _ _)
    · simp only [aremove, hx, if_false, List.map_cons, Bool.false_eq_true]
      exact ih.cons₂ x.1

theorem aremove_length_of_present {α : Type} (l : List (String × α)) (k : String)
    (h : (alookup l k).isSome = true) : (aremove l k).length + 1 = l.length := by
  induction l with
  | nil => simp [alookup] at h
  | cons x xs ih =>
    rw [alookup_cons] at h
    by_cases hx : x.1 == k
    · simp [aremove, hx]
    · rw [if_neg hx] at h
      simp only [aremove, hx, if_false, List.length_cons, Bool.false_eq_true]
      rw [← ih h]

theorem alookup_of_mem_nodup {α : Type} (l : List (String × α)) (p : String × α)
    (hnd : (l.map (fun q => q.1)).Nodup) (h : p ∈ l) : alookup l p.1 = some p.2 := by
  induction l with
  | nil => simp at h
  | cons x xs ih =>
    rw [alookup_cons]
    rcases List.mem_cons.mp h with h1 | h1
    · subst h1
      simp
    · simp only [List.map_cons, List.nodup_cons] at hnd
      have hne : ¬ (x.1 == p.1) = true := by
        intro hb
        exact hnd.1 ((beq_iff_eq.mp hb) ▸ List.mem_map_of_mem (fun q => q.1) h1)
      rw [if_neg hne]
      exact ih hnd.2 h1

theorem resident_aset_update (l : List (String × QCEntry)) (k : String) (v e : QCEntry)
    (hl : alookup l k = some e) (hnd : (l.map (fun p => p.1)).Nodup) :
    (((aset l k v).map (fun p => p.2.size)).sum) + e.size =
      ((l.map (fun p => p.2.size)).sum) + v.size := by
  have hany := (alookup_isSome_iff_any l k).mp (by simp [hl])
  simp only [aset, hany, if_true]
  induction l with
  | nil => simp [alookup] at hl
  | cons x xs ih =>
    rw [alookup_cons] at hl
    by_cases hx : x.1 == k
    · have hk : x.1 = k := beq_iff_eq.mp hx
      have hxv : x.2 = e := by simpa [hx] using hl
      have hnot : ¬ k ∈ xs.map (fun p => p.1) := by
        simp only [List.map_cons, List.nodup_cons] at hnd
        exact hk ▸ hnd.1
      simp only [List.map_cons, if_pos hx, map_update_of_not_mem xs k v hnot]
      simp [hxv]
      omega
    · rw [if_neg hx] at hl
      have hnd' : (xs.map (fun p => p.1)).Nodup := by
        simp only [List.map_cons, List.nodup_cons] at hnd
        exact hnd.2
      have hany' := (alookup_isSome_iff_any xs k).mp (by simp [hl])
      have := ih hl hnd' hany'
      simp only [List.map_cons, if_neg hx, List.sum_cons]
      omega

theorem resident_aset_le (l : List (String × QCEntry)) (k : String) (v : QCEntry)
    (hnd : (l.map (fun p => p.1)).Nodup) :
    (((aset l k v).map (fun p => p.2.size)).sum) ≤ ((l.map (fun p => p.2.size)).sum) + v.size := by
  by_cases hany : (l.any (fun p => p.1 == k)) = true
  · have hsome := (alookup_isSome_iff_any l k).mpr hany
    match hl : alookup l k with
    | some e =>
      have := resident_aset_update l k v e hl hnd
      omega
    | none => rw [hl] at hsome; simp at hsome
  · have hfalse : (l.any (fun p => p.1 == k)) = false := by
      cases hb : (l.any (fun p => p.1 == k)) with
      | false => rfl
      | true => exact absurd hb hany
    rw [aset_of_not_any l k v hfalse]
    simp

theorem findOldest_go (l : List (String × QCEntry)) (b : String × QCEntry) :
    ∃ p, (l.foldl (fun best q =>
        match best with
        | none => some q
        | some c => if q.2.timestamp < c.2.timestamp then some q else some c) (some b)) = some p ∧
      (p = b ∨ p ∈ l) ∧ p.2.timestamp ≤ b.2.timestamp ∧
      ∀ q ∈ l, p.2.timestamp ≤ q.2.timestamp := by
  induction l generalizing b with
  | nil => exact ⟨b, rfl, Or.inl rfl, le_refl _, by simp⟩
  | cons x xs ih =>
    simp only [List.foldl_cons]
    by_cases hx : x.2.timestamp < b.2.timestamp
    · rw [if_pos hx]
      obtain ⟨p, hp1, hp2, hp3, hp4⟩ := ih x
      refine ⟨p, hp1, ?_, ?_, ?_⟩
      · rcases hp2 with h | h
        · subst h; exact Or.inr (List.mem_cons_self p xs)
        · exact Or.inr (List.mem_cons_of_mem x h)
      · omega
      · intro q hq
        rcases List.mem_cons.mp hq with h | h
        · subst h; exact hp3
        · exact hp4 q h
    · rw [if_neg hx]
      obtain ⟨p, hp1, hp2, hp3, hp4⟩ := ih b
      refine ⟨p, hp1, ?_, hp3, ?_⟩
      · rcases hp2 with h | h
        · exact Or.inl h
        · exact Or.inr (List.mem_cons_of_mem x h)
      · intro q hq
        rcases List.mem_cons.mp hq with h | h
        · subst h; omega
        · exact hp4 q h

theorem findOldest_spec (l : List (String × QCEntry)) (hne : l ≠ []) :
    ∃ p, findOldest l = some p ∧ p ∈ l ∧ ∀ q ∈ l, p.2.timestamp ≤ q.2.timestamp := by
  match l, hne with
  | x :: xs, _ =>
    unfold findOldest
    simp only [List.foldl_cons]
    obtain ⟨p, hp1, hp2, hp3, hp4⟩ := findOldest_go xs x
    refine ⟨p, hp1, ?_, ?_⟩
    · rcases hp2 with h | h
      · subst h; exact List.mem_cons_self p xs
      · exact List.mem_cons_of_mem x h
    · intro q hq
      rcases List.mem_cons.mp hq with h | h
      · subst h; exact hp3
      · exact hp4 q h

theorem evictOldest_spec (st : QCState) (hne : st.cache ≠ []) :
    ∃ p, p ∈ st.cache ∧ (∀ q ∈ st.cache, p.2.timestamp ≤ q.2.timestamp) ∧
      evictOldest st =
        { st with
          cache := aremove st.cache p.1,
          currentCacheSize := st.currentCacheSize - (p.2.size : Int) } := by
  obtain ⟨p, hp1, hp2, hp3⟩ := findOldest_spec st.cache hne
  refine ⟨p, hp2, hp3, ?_⟩
  unfold evictOldest
  rw [hp1]

theorem evictOldest_inv (st : QCState) (hne : st.cache ≠ []) (hInv : QCInv st) :
    QCInv (evictOldest st) ∧ (evictOldest st).cache.length + 1 = st.cache.length := by
  obtain ⟨p, hp1, hp2, hp3⟩ := evictOldest_spec st hne
  obtain ⟨hnd, hle, hmax⟩ := hInv
  have hl := alookup_of_mem_nodup st.cache p hnd hp1
  have hres := resident_aremove st.cache p.1 p.2 hl
  have hlen := aremove_length_of_present st.cache p.1 (by simp [hl])
  rw [hp3]
  refine ⟨⟨?_, ?_, ?_⟩, hlen⟩
  · exact (aremove_keys_sublist st.cache p.1).nodup hnd
  · simp only [qcResident] at hle ⊢
    omega
  · simp only [qcResident] at hmax ⊢
    omega

theorem evictLoop_inv (fuel : Nat) (st : QCState) (ds : Nat)
    (hfuel : st.cache.length ≤ fuel) (hInv : QCInv st) :
    QCInv (evictLoop fuel st ds) ∧
      ((evictLoop fuel st ds).currentCacheSize + ds ≤ (maxCacheSize : Int) ∨
        (evictLoop fuel st ds).cache = []) := by
  induction fuel generalizing st with
  | zero =>
    have : st.cache = [] := List.length_eq_zero.mp (by omega)
    simp [evictLoop, hInv, this]
  | succ f ih =>
    unfold evictLoop
    by_cases hc : st.currentCacheSize + ds > (maxCacheSize : Int) ∧ st.cache.length > 0
    · rw [if_pos hc]
      have hne : st.cache ≠ [] := by
        intro h
        rw [h] at hc
        simp at hc
      obtain ⟨hInv1, hlen⟩ := evictOldest_inv st hne hInv
      exact ih (evictOldest st) (by omega) hInv1
    · rw [if_neg hc]
      refine ⟨hInv, ?_⟩
      by_cases h1 : st.currentCacheSize + ds ≤ (maxCacheSize : Int)
      · exact Or.inl h1
      · right
        have : st.cache.length = 0 := by
          by_contra h2
          exact hc ⟨by omega, by omega⟩
        exact List.length_eq_zero.mp this

theorem qcSet_inv (st : QCState) (s e : Option Int) (d : String) (o : String) (n : Int)
    (hInv : QCInv st) : QCInv (qcSet st s e d o n) := by
  unfold qcSet
  try dsimp only
  by_cases hbig : d.length > maxCacheSize
  · rw [if_pos hbig]
    exact hInv
  · rw [if_neg hbig]
    obtain ⟨hInv1, hfit⟩ := evictLoop_inv st.cache.length st d.length (le_refl _) hInv
    obtain ⟨hnd1, hle1, hmax1⟩ := hInv1
    set st1 := evictLoop st.cache.length st d.length with hst1
    try dsimp only
    have hsetle := resident_aset_le st1.cache (getCacheKey s e o) ⟨d, n, d.length, 0⟩ hnd1
    have hsetup : ∀ v : QCEntry, alookup st1.cache (getCacheKey s e o) = some v →
        ((aset st1.cache (getCacheKey s e o) ⟨d, n, d.length, 0⟩).map
          (fun p => p.2.size)).sum + v.size = (st1.cache.map (fun p => p.2.size)).sum
            + d.length := by
      intro v hv
      exact resident_aset_update st1.cache (getCacheKey s e o) ⟨d, n, d.length, 0⟩ v hv hnd1
    refine ⟨?_, ?_, ?_⟩
    · by_cases hany : (st1.cache.any (fun p => p.1 == getCacheKey s e o)) = true
      · rw [aset_keys_of_mem st1.cache (getCacheKey s e o) _ hany]
        exact hnd1
      · have hfalse : (st1.cache.any (fun p => p.1 == getCacheKey s e o)) = false := by
          cases hb : (st1.cache.any (fun p => p.1 == getCacheKey s e o)) with
          | false => rfl
          | true => exact absurd hb hany
        rw [aset_of_not_any _ _ _ hfalse]
        simp only [List.map_append, List.map_cons, List.map_nil]
        rw [List.nodup_append]
        refine ⟨hnd1, by simp, ?_⟩
        intro a ha
        simp only [List.mem_singleton]
        intro hb
        subst hb
        have := (mem_keys_iff_any st1.cache (getCacheKey s e o)).mpr ha
        rw [this] at hfalse
        simp at hfalse
    · have hcast : ((qcResident { st1 with
          cache := aset st1.cache (getCacheKey s e o) ⟨d, n, d.length, 0⟩,
          currentCacheSize := st1.currentCacheSize + (d.length : Int) } : Nat) : Int)
            ≤ (qcResident st1 : Int) + (d.length : Int) := by
        simp only [qcResident]
        exact_mod_cast hsetle
      simp only [qcResident] at hcast hle1 ⊢
      omega
    · rcases hfit with hfit | hempty
      · have hNat : qcResident st1 + d.length ≤ maxCacheSize := by
          have h1 : ((qcResident st1 : Int)) + (d.length : Int) ≤ (maxCacheSize : Int) := by
            omega
          exact_mod_cast h1
        simp only [qcResident] at hNat hsetle ⊢
        omega
      · simp only [qcResident]
        rw [hempty, aset_of_not_any]
        · simp
          omega
        · rfl

theorem qcGet_inv (st : QCState) (s e : Option Int) (o : String) (n : Int)
    (hInv : QCInv st) : QCInv ((qcGet st s e o n).1) := by
  obtain ⟨hnd, hle, hmax⟩ := hInv
  unfold qcGet
  try dsimp only
  cases hl : alookup st.cache (getCacheKey s e o) with
  | none => exact ⟨hnd, hle, hmax⟩
  | some entry =>
    try dsimp only
    by_cases hexp : n - entry.timestamp > cacheTTL
    · rw [if_pos hexp]
      have hres := resident_aremove st.cache (getCacheKey s e o) entry hl
      refine ⟨?_, ?_, ?_⟩
      · exact (aremove_keys_sublist st.cache (getCacheKey s e o)).nodup hnd
      · simp only [qcResident] at hle ⊢
        omega
      · simp only [qcResident] at hmax ⊢
        omega
    · rw [if_neg hexp]
      have hup := resident_aset_update st.cache (getCacheKey s e o)
        ({ entry with accessCount := entry.accessCount + 1, timestamp := n }) entry hl hnd
      have hany := (alookup_isSome_iff_any st.cache (getCacheKey s e o)).mp (by simp [hl])
      refine ⟨?_, ?_, ?_⟩
      · rw [aset_keys_of_mem st.cache (getCacheKey s e o) _ hany]
        exact hnd
      · simp only [qcResident] at hle hup ⊢
        omega
      · simp only [qcResident] at hmax hup ⊢
        omega

theorem runQCOps_inv (ops : List QCOp) : QCInv (runQCOps ops) := by
  have hInit : QCInv initQC := by
    refine ⟨by simp [initQC], by simp [initQC, qcResident], by simp [initQC, qcResident]⟩
  rw [runQCOps]
  induction ops using List.reverseRecOn with
  | nil => exact hInit
  | append_singleton ops op ih =>
    rw [List.foldl_append, List.foldl_cons, List.foldl_nil]
    match op with
    | .opSet s e d o n => exact qcSet_inv _ s e d o n ih
    | .opGet s e o n => exact qcGet_inv _ s e o n ih

/-- C4: after any sequence of QueryCache `set`/`get` operations from a fresh
cache, the total byte size of resident entries never exceeds `maxCacheSize`
(100MB); whenever eviction fires on a nonempty cache it removes an entry whose
access timestamp is minimal among the current entries (the least recently
used, since `get` refreshes the timestamp on every hit); and a payload whose
own size exceeds `maxCacheSize` is rejected without changing the state. -/
theorem c4_queryCache_lru_bound :
    (∀ ops : List QCOp, qcResident (runQCOps ops) ≤ maxCacheSize) ∧
    (∀ st : QCState, st.cache ≠ [] →
      ∃ p, p ∈ st.cache ∧ (∀ q ∈ st.cache, p.2.timestamp ≤ q.2.timestamp) ∧
        evictOldest st =
          { st with
            cache := aremove st.cache p.1,
            currentCacheSize := st.currentCacheSize - (p.2.size : Int) }) ∧
    (∀ (st : QCState) (s e : Option Int) (d o : String) (n : Int),
      maxCacheSize < d.length → qcSet st s e d o n = st) := by
  refine ⟨?_, ?_, ?_⟩
  · intro ops
    exact (runQCOps_inv ops).2.2
  · intro st hne
    exact evictOldest_spec st hne
  · intro st s e d o n hbig
    unfold qcSet
    rw [if_pos hbig]

theorem c4_witness :
    qcResident (runQCOps [QCOp.opSet none none "abc" "q" 0, QCOp.opGet none none "q" 1])
        ≤ maxCacheSize ∧
    (∃ p, p ∈ qcStW.cache ∧ (∀ q ∈ qcStW.cache, p.2.timestamp ≤ q.2.timestamp) ∧
      evictOldest qcStW =
        { qcStW with
          cache := aremove qcStW.cache p.1,
          currentCacheSize := qcStW.currentCacheSize - (p.2.size : Int) }) ∧
    (maxCacheSize < bigStr.length ∧ qcSet initQC none none bigStr "q" 0 = initQC) := by
  have h := c4_queryCache_lru_bound
  have hlen : bigStr.length = 104857601 := by
    rw [bigStr]
    rw [show (String.mk (List.replicate 104857601 'a')).length
      = (List.replicate 104857601 'a').length from rfl]
    rw [List.length_replicate]
  have hbig : maxCacheSize < bigStr.length := by
    rw [hlen]
    decide
  exact ⟨h.1 _, h.2.1 qcStW (by decide), hbig, h.2.2 initQC none none bigStr "q" 0 hbig⟩

theorem alookup_append {α : Type} (l l2 : List (String × α)) (k : String) :
    alookup (l ++ l2) k =
      match alookup l k with
      | some v => some v
      | none => alookup l2 k := by
  induction l with
  | nil => simp [alookup]
  | cons x xs ih =>
    rw [List.cons_append, alookup_cons, alookup_cons]
    by_cases h : (x.1 == k) = true
    · rw [if_pos h, if_pos h]
    · rw [if_neg h, if_neg h, ih]

theorem alookup_map_update {α : Type} (l : List (String × α)) (k : String) (v : α)
    (hany : (l.any fun p => p.1 == k) = true) :
    alookup (l.map (fun p => if p.1 == k then (k, v) else p)) k = some v := by
  induction l with
  | nil => simp at hany
  | cons x xs ih =>
    rw [List.map_cons]
    by_cases hx : (x.1 == k) = true
    · rw [if_pos hx, alookup_cons]
      simp
    · rw [if_neg hx, alookup_cons, if_neg hx]
      apply ih
      have hx2 : (x.1 == k) = false := by
        cases hb : (x.1 == k) with
        | false => rfl
        | true => exact absurd hb hx
      rw [List.any_cons, hx2, Bool.false_or] at hany
      exact hany

theorem alookup_none_of_any_false {α : Type} (l : List (String × α)) (k : String)
    (hany : (l.any fun p => p.1 == k) = false) : alookup l k = none := by
  cases ho : alookup l k with
  | none => rfl
  | some w =>
    have := (alookup_isSome_iff_any l k).mp (by rw [ho]; rfl)
    rw [this] at hany
    cases hany

theorem alookup_aset_self {α : Type} (l : List (String × α)) (k : String) (v : α) :
    alookup (aset l k v) k = some v := by
  unfold aset
  by_cases hany : (l.any fun p => p.1 == k) = true
  · rw [if_pos hany]
    exact alookup_map_update l k v hany
  · have hany2 : (l.any fun p => p.1 == k) = false := by
      cases hb : (l.any fun p => p.1 == k) with
      | false => rfl
      | true => exact absurd hb hany
    rw [if_neg hany, alookup_append, alookup_none_of_any_false l k hany2]
    simp [alookup, List.find?]

theorem alookup_map_update_ne {α : Type} (l : List (String × α)) (k k2 : String) (v : α)
    (h : k2 ≠ k) :
    alookup (l.map (fun p => if p.1 == k then (k, v) else p)) k2 = alookup l k2 := by
  induction l with
  | nil => rfl
  | cons x xs ih =>
    rw [List.map_cons]
    by_cases hx : (x.1 == k) = true
    · rw [if_pos hx, alookup_cons, alookup_cons]
      have hk2 : ((k : String) == k2) = false := beq_eq_false_iff_ne.mpr (fun he => h he.symm)
      have hx2 : (x.1 == k2) = false := by
        rw [beq_iff_eq.mp hx]
        exact hk2
      dsimp only
      rw [hk2, hx2, if_neg (by simp), if_neg (by simp)]
      exact ih
    · rw [if_neg hx, alookup_cons, alookup_cons]
      by_cases hx2 : (x.1 == k2) = true
      · rw [if_pos hx2, if_pos hx2]
      · rw [if_neg hx2, if_neg hx2]
        exact ih

theorem alookup_aset_ne {α : Type} (l : List (String × α)) (k k2 : String) (v : α)
    (h : k2 ≠ k) : alookup (aset l k v) k2 = alookup l k2 := by
  unfold aset
  by_cases hany : (l.any fun p => p.1 == k) = true
  · rw [if_pos hany]
    exact alookup_map_update_ne l k k2 v h
  · rw [if_neg hany, alookup_append]
    have htail : alookup [(k, v)] k2 = none := by
      rw [alookup_cons]
      dsimp only
      rw [beq_eq_false_iff_ne.mpr (fun he => h he.symm), if_neg (by simp)]
      rfl
    cases ho : alookup l k2 with
    | none => rw [htail]
    | some w => rfl

theorem map_update_self {α : Type} (l : List (String × α)) (k : String) (v : α)
    (hnd : (l.map (fun p => p.1)).Nodup) (h : alookup l k = some v) :
    l.map (fun p => if p.1 == k then (k, v) else p) = l := by
  induction l with
  | nil => simp [alookup] at h
  | cons x xs ih =>
    rw [alookup_cons] at h
    rw [List.map_cons]
    rw [List.map_cons] at hnd
    by_cases hx : (x.1 == k) = true
    · rw [if_pos hx] at h
      rw [if_pos hx]
      have hv : v = x.2 := (Option.some.inj h).symm
      have hk : x.1 = k := beq_iff_eq.mp hx
      have hkx : ¬ k ∈ xs.map (fun p => p.1) := by
        rw [← hk]
        exact (List.nodup_cons.mp hnd).1
      rw [map_update_of_not_mem xs k v hkx, hv, ← hk]
    · rw [if_neg hx] at h
      rw [if_neg hx, ih (List.nodup_cons.mp hnd).2 h]

theorem aset_self {α : Type} (l : List (String × α)) (k : String) (v : α)
    (hnd : (l.map (fun p => p.1)).Nodup) (h : alookup l k = some v) : aset l k v = l := by
  have hany : (l.any fun p => p.1 == k) = true :=
    (alookup_isSome_iff_any l k).mp (by rw [h]; rfl)
  unfold aset
  rw [if_pos hany]
  exact map_update_self l k v hnd h

theorem foldl_aset_id {α : Type} (ks : List String) (m : List (String × α)) (v : α)
    (hnd : (m.map (fun p => p.1)).Nodup) (h : ∀ rk ∈ ks, alookup m rk = some v) :
    ks.foldl (fun m2 rk => aset m2 rk v) m = m := by
  induction ks with
  | nil => rfl
  | cons rk ks ih =>
    rw [List.foldl_cons, aset_self m rk v hnd (h rk (List.mem_cons_self rk ks))]
    exact ih (fun rk2 h2 => h rk2 (List.mem_cons_of_mem rk h2))

theorem aset_append_self {α : Type} (l : List (String × α)) (k : String) (b v : α)
    (hany : (l.any fun p => p.1 == k) = false) :
    aset (l ++ [(k, b)]) k v = l ++ [(k, v)] := by
  have hmem : ((l ++ [(k, b)]).any fun p => p.1 == k) = true := by
    rw [List.any_append, Bool.or_eq_true]
    exact Or.inr (by simp)
  unfold aset
  rw [if_pos hmem, List.map_append]
  congr 1
  · apply map_update_of_not_mem
    intro hk
    rw [← mem_keys_iff_any] at hk
    rw [hk] at hany
    cases hany
  · simp

theorem alookup_map_keys {α β : Type} (l : List (String × α)) (f : String → α → β)
    (k : String) :
    alookup (l.map (fun p => (p.1, f p.1 p.2))) k = (alookup l k).map (f k) := by
  induction l with
  | nil => rfl
  | cons x xs ih =>
    rw [List.map_cons, alookup_cons, alookup_cons]
    dsimp only
    by_cases hx : (x.1 == k) = true
    · rw [if_pos hx, if_pos hx, beq_iff_eq.mp hx]
      rfl
    · rw [if_neg hx, if_neg hx]
      exact ih

theorem any_map_keys {α β : Type} (l : List (String × α)) (f : String → α → β) (k : String) :
    ((l.map (fun p => (p.1, f p.1 p.2))).any fun p => p.1 == k)
      = (l.any fun p => p.1 == k) := by
  induction l with
  | nil => rfl
  | cons x xs ih =>
    rw [List.map_cons, List.any_cons, List.any_cons, ih]

theorem aset_map_keys {α β : Type} (l : List (String × α)) (f : String → α → β)
    (k : String) (v : α) :
    (aset l k v).map (fun p => (p.1, f p.1 p.2))
      = aset (l.map (fun p => (p.1, f p.1 p.2))) k (f k v) := by
  unfold aset
  rw [any_map_keys]
  by_cases hany : (l.any fun p => p.1 == k) = true
  · rw [if_pos hany, if_pos hany, List.map_map, List.map_map]
    apply List.map_congr_left
    intro p _
    by_cases hx : (p.1 == k) = true
    · simp [Function.comp, hx]
    · simp [Function.comp, hx]
  · rw [if_neg hany, if_neg hany, List.map_append]
    rfl

theorem mem_addSet (l : List String) (k rk : String) (h : rk ∈ addSet l k) :
    rk ∈ l ∨ rk = k := by
  unfold addSet at h
  by_cases hc : l.contains k
  · rw [if_pos hc] at h
    exact Or.inl h
  · rw [if_neg hc] at h
    rcases List.mem_append.mp h with h | h
    · exact Or.inl h
    · exact Or.inr (List.mem_singleton.mp h)

theorem str_append_cancel (a b s : String) (h : a ++ s = b ++ s) : a = b := by
  have hd : a.data ++ s.data = b.data ++ s.data := congrArg String.data h
  have h2 : a.data = b.data := List.append_cancel_right hd
  cases a
  cases b
  rw [show String.mk _ = _ from congrArg String.mk h2]

theorem seqDate_eq (r : Rec) : seqDate r = (batchTs r).map civilFromTime := by
  unfold seqDate batchTs
  cases r.startTime with
  | vDate ts => rfl
  | vNum n => rfl
  | vStr s =>
    dsimp only
    cases jsNewDate s with
    | none => rfl
    | some dt => rfl
  | vNone => rfl

theorem batchStep_eq (cfg : CycleConfig) (gt : String) (acc : BatchAcc) (r : Rec) (ts : Int)
    (hfr : alookup acc.r2b (getRecordKey r) = none)
    (hts : batchTs r = some ts)
    (hgood : ∀ gi, alookup acc.giCache (ckOf gt ts) = some gi → gi = giStar cfg gt ts) :
    batchStep cfg gt acc r =
      ⟨pushGroup acc.grouped (giStar cfg gt ts) r (getRecordKey r),
       (match alookup acc.giCache (ckOf gt ts) with
        | some _ => acc.giCache
        | none => aset acc.giCache (ckOf gt ts) (giStar cfg gt ts)),
       aset acc.r2b (getRecordKey r) (giStar cfg gt ts).key⟩ := by
  unfold batchStep
  try dsimp only
  rw [hfr]
  simp only [Option.isSome_none, Bool.false_eq_true, if_false]
  rw [hts]
  dsimp only
  cases hgi : alookup acc.giCache (ckOf gt ts) with
  | none =>
    rw [show alookup acc.giCache (toString (ts / 86400000) ++ "_" ++ gt)
      = none from hgi]
    rfl
  | some gi =>
    rw [show alookup acc.giCache (toString (ts / 86400000) ++ "_" ++ gt)
      = some gi from hgi]
    rw [hgood gi hgi]
    rfl

theorem addRecordToBucket_eq (cfg : CycleConfig) (gt : String) (st : DSState) (r : Rec)
    (ts : Int) (hts : batchTs r = some ts)
    (hnotin : ∀ b : Bkt, alookup st.buckets (giStar cfg gt ts).key = some b →
      (b.records.any (fun x => getRecordKey x == getRecordKey r)) = false) :
    (addRecordToBucket st cfg gt r).1 =
      ⟨(match alookup st.buckets (giStar cfg gt ts).key with
        | none => st.buckets ++ [((giStar cfg gt ts).key,
            ⟨(giStar cfg gt ts).key, (giStar cfg gt ts).label, [r],
             (giStar cfg gt ts).rangeStart, (giStar cfg gt ts).rangeEnd⟩)]
        | some b => aset st.buckets (giStar cfg gt ts).key
            { b with records := b.records ++ [r] }),
       aset st.recordToBucket (getRecordKey r) (giStar cfg gt ts).key⟩ := by
  unfold addRecordToBucket
  rw [seqDate_eq r, hts]
  dsimp only [Option.map]
  cases hb : alookup st.buckets (giStar cfg gt ts).key with
  | none =>
    rw [show alookup st.buckets (getGroupOfDate cfg (civilFromTime ts) gt).key
      = none from hb]
    rfl
  | some b =>
    rw [show alookup st.buckets (getGroupOfDate cfg (civilFromTime ts) gt).key
      = some b from hb]
    dsimp only
    rw [hnotin b hb]
    rfl

theorem step_sim (cfg : CycleConfig) (gt : String) (records : List Rec)
    (H2 : giCoherent cfg gt records)
    (acc : BatchAcc) (r : Rec) (hr : r ∈ records)
    (hfr : alookup acc.r2b (getRecordKey r) = none)
    (hInv : InvA cfg gt records acc) :
    (addRecordToBucket (stateOf acc) cfg gt r).1 = stateOf (batchStep cfg gt acc r)
    ∧ InvA cfg gt records (batchStep cfg gt acc r)
    ∧ (∀ rk2, rk2 ≠ getRecordKey r →
        alookup (batchStep cfg gt acc r).r2b rk2 = alookup acc.r2b rk2) := by
  obtain ⟨hndG, hndR, hGR, hGI⟩ := hInv
  cases hts : batchTs r with
  | none =>
    have hb : batchStep cfg gt acc r = acc := by
      unfold batchStep
      try dsimp only
      rw [hfr]
      simp only [Option.isSome_none, Bool.false_eq_true, if_false]
      rw [hts]
    have hs : (addRecordToBucket (stateOf acc) cfg gt r).1 = stateOf acc := by
      unfold addRecordToBucket
      rw [seqDate_eq r, hts]
      rfl
    rw [hb, hs]
    exact ⟨rfl, ⟨hndG, hndR, hGR, hGI⟩, fun rk2 h2 => rfl⟩
  | some ts =>
    have hgood : ∀ gi, alookup acc.giCache (ckOf gt ts) = some gi → gi = giStar cfg gt ts := by
      intro gi hgi
      obtain ⟨t, r0, hr0, ht0, hck, hgiv⟩ := hGI (ckOf gt ts) gi hgi
      have h1 : toString (ts / 86400000) ++ "_" ++ gt
          = toString (t / 86400000) ++ "_" ++ gt := hck
      have hstr : toString (ts / 86400000) = toString (t / 86400000) :=
        str_append_cancel _ _ "_" (str_append_cancel _ _ gt h1)
      have hgr := H2 r hr r0 hr0 ts t hts ht0 hstr
      rw [hgiv]
      exact hgr.symm
    have hbeq := batchStep_eq cfg gt acc r ts hfr hts hgood
    have hany : ∀ b : Bkt, alookup (stateOf acc).buckets (giStar cfg gt ts).key = some b →
        (b.records.any (fun x => getRecordKey x == getRecordKey r)) = false := by
      intro b hb
      rw [show (stateOf acc).buckets = acc.grouped.map (fun p => (p.1, bktOf p.1 p.2)) from rfl,
        alookup_map_keys] at hb
      cases hA : alookup acc.grouped (giStar cfg gt ts).key with
      | none =>
        rw [hA] at hb
        cases hb
      | some g =>
        rw [hA] at hb
        have hbg : b = bktOf (giStar cfg gt ts).key g := (Option.some.inj hb).symm
        rw [hbg]
        cases hAny : ((bktOf (giStar cfg gt ts).key g).records.any
            (fun x => getRecordKey x == getRecordKey r)) with
        | false => rfl
        | true =>
          obtain ⟨x, hx, hxk⟩ := List.any_eq_true.mp hAny
          have hxs := (hGR _ g hA).1 x hx
          rw [beq_iff_eq.mp hxk, hfr] at hxs
          cases hxs
    have hseq := addRecordToBucket_eq cfg gt (stateOf acc) r ts hts hany
    rw [hbeq, hseq]
    have hpres : ∀ k, (alookup acc.r2b k).isSome = true →
        (alookup (aset acc.r2b (getRecordKey r) (giStar cfg gt ts).key) k).isSome = true := by
      intro k hk
      by_cases hke : k = getRecordKey r
      · rw [hke, alookup_aset_self]
        rfl
      · rw [alookup_aset_ne _ _ _ _ hke]
        exact hk
    have hner : ∀ (k : String) (v : String), alookup acc.r2b k = some v →
        k ≠ getRecordKey r := by
      intro k v hv hke
      rw [hke, hfr] at hv
      cases hv
    have hsome : ∀ (k : String) (v : String), alookup acc.r2b k = some v →
        alookup (aset acc.r2b (getRecordKey r) (giStar cfg gt ts).key) k = some v := by
      intro k v hv
      rw [alookup_aset_ne _ _ _ _ (hner k v hv)]
      exact hv
    refine ⟨?_, ⟨?_, ?_, ?_, ?_⟩, ?_⟩
    · -- the DSState equality
      show _ = stateOf _
      unfold stateOf
      dsimp only
      rw [alookup_map_keys]
      unfold pushGroup
      cases hA : alookup acc.grouped (giStar cfg gt ts).key with
      | none =>
        dsimp only [Option.map]
        rw [List.map_append]
        rfl
      | some g =>
        dsimp only [Option.map]
        rw [aset_map_keys]
        rfl
    · -- grouped keys nodup
      dsimp only
      unfold pushGroup
      cases hA : alookup acc.grouped (giStar cfg gt ts).key with
      | none =>
        have hnotmem : ¬ (giStar cfg gt ts).key ∈ acc.grouped.map (fun p => p.1) := by
          intro hm
          have hanyt := (mem_keys_iff_any acc.grouped (giStar cfg gt ts).key).mpr hm
          have := (alookup_isSome_iff_any acc.grouped (giStar cfg gt ts).key).mpr hanyt
          rw [hA] at this
          cases this
        rw [List.map_append]
        rw [List.nodup_append]
        refine ⟨hndG, by simp, ?_⟩
        intro a ha
        simp only [List.map_cons, List.map_nil, List.mem_singleton]
        intro hb
        rw [hb] at ha
        exact hnotmem ha
      | some g =>
        have hanyt : (acc.grouped.any fun p => p.1 == (giStar cfg gt ts).key) = true := by
          apply (alookup_isSome_iff_any acc.grouped (giStar cfg gt ts).key).mp
          rw [hA]
          rfl
        rw [aset_keys_of_mem acc.grouped (giStar cfg gt ts).key _ hanyt]
        exact hndG
    · -- r2b keys nodup
      dsimp only
      have hanyf : (acc.r2b.any fun p => p.1 == getRecordKey r) = false := by
        cases hb : (acc.r2b.any fun p => p.1 == getRecordKey r) with
        | false => rfl
        | true =>
          have := (alookup_isSome_iff_any acc.r2b (getRecordKey r)).mpr hb
          rw [hfr] at this
          cases this
      rw [aset_of_not_any acc.r2b (getRecordKey r) _ hanyf, List.map_append, List.nodup_append]
      refine ⟨hndR, by simp, ?_⟩
      intro a ha
      simp only [List.map_cons, List.map_nil, List.mem_singleton]
      intro hb
      rw [hb] at ha
      have hanyt := (mem_keys_iff_any acc.r2b (getRecordKey r)).mpr ha
      rw [hanyt] at hanyf
      cases hanyf
    · -- group records / recordKeys facts
      dsimp only
      intro gk g hg
      unfold pushGroup at hg
      cases hA : alookup acc.grouped (giStar cfg gt ts).key with
      | none =>
        rw [hA] at hg
        rw [alookup_append] at hg
        cases hG0 : alookup acc.grouped gk with
        | some g0 =>
          rw [hG0] at hg
          have hgg : g = g0 := (Option.some.inj hg).symm
          rw [hgg]
          obtain ⟨ha, hb⟩ := hGR gk g0 hG0
          refine ⟨fun x hx => hpres _ (ha x hx), fun rk2 hk2 => hsome _ _ (hb rk2 hk2)⟩
        | none =>
          rw [hG0] at hg
          dsimp only at hg
          rw [alookup_cons] at hg
          by_cases hkk : ((giStar cfg gt ts).key == gk) = true
          · rw [if_pos hkk] at hg
            dsimp only at hg
            have hgg : g = ⟨(giStar cfg gt ts).label, (giStar cfg gt ts).rangeStart,
                (giStar cfg gt ts).rangeEnd, [r], [getRecordKey r]⟩ :=
              (Option.some.inj hg).symm
            rw [hgg, ← beq_iff_eq.mp hkk]
            constructor
            · intro x hx
              have hxr : x = r := List.mem_singleton.mp hx
              rw [hxr, alookup_aset_self]
              rfl
            · intro rk2 hk2
              have hkr : rk2 = getRecordKey r := List.mem_singleton.mp hk2
              rw [hkr, alookup_aset_self]
          · rw [if_neg hkk] at hg
            cases hg
      | some g1 =>
        rw [hA] at hg
        by_cases hkk : gk = (giStar cfg gt ts).key
        · rw [hkk, alookup_aset_self] at hg
          have hgg : g = { g1 with
              records := g1.records ++ [r],
              recordKeys := addSet g1.recordKeys (getRecordKey r) } :=
            (Option.some.inj hg).symm
          obtain ⟨ha, hb⟩ := hGR (giStar cfg gt ts).key g1 hA
          rw [hgg, hkk]
          constructor
          · intro x hx
            rcases List.mem_append.mp hx with hx | hx
            · exact hpres _ (ha x hx)
            · rw [List.mem_singleton.mp hx, alookup_aset_self]
              rfl
          · intro rk2 hk2
            rcases mem_addSet g1.recordKeys (getRecordKey r) rk2 hk2 with hk2 | hk2
            · exact hsome _ _ (hb rk2 hk2)
            · rw [hk2, alookup_aset_self]
        · rw [alookup_aset_ne _ _ _ _ hkk] at hg
          obtain ⟨ha, hb⟩ := hGR gk g hg
          refine ⟨fun x hx => hpres _ (ha x hx), fun rk2 hk2 => hsome _ _ (hb rk2 hk2)⟩
    · -- giCache facts
      dsimp only
      cases hgiC : alookup acc.giCache (ckOf gt ts) with
      | some gi0 => exact hGI
      | none =>
        intro ck2 gi2 h2
        by_cases hcc : ck2 = ckOf gt ts
        · rw [hcc, alookup_aset_self] at h2
          have hg2 : gi2 = giStar cfg gt ts := (Option.some.inj h2).symm
          exact ⟨ts, r, hr, hts, by rw [hcc]; rfl, by rw [hg2]; rfl⟩
        · rw [alookup_aset_ne _ _ _ _ hcc] at h2
          exact hGI ck2 gi2 h2
    · -- r2b preservation away from the new key
      intro rk2 h2
      dsimp only
      exact alookup_aset_ne _ _ _ _ h2

theorem batch_seq_fold (cfg : CycleConfig) (gt : String) (records : List Rec)
    (H2 : giCoherent cfg gt records) :
    ∀ (l : List Rec) (acc : BatchAcc),
      (∀ r ∈ l, r ∈ records) →
      ((l.map getRecordKey).Nodup) →
      (∀ r ∈ l, alookup acc.r2b (getRecordKey r) = none) →
      InvA cfg gt records acc →
      (l.foldl (fun st r => (addRecordToBucket st cfg gt r).1) (stateOf acc)
          = stateOf (l.foldl (batchStep cfg gt) acc)
        ∧ InvA cfg gt records (l.foldl (batchStep cfg gt) acc)) := by
  intro l
  induction l with
  | nil =>
    intro acc _ _ _ hInv
    exact ⟨rfl, hInv⟩
  | cons r l ih =>
    intro acc hsub hnd hfresh hInv
    rw [List.foldl_cons, List.foldl_cons]
    obtain ⟨hstep, hInv2, hpres⟩ := step_sim cfg gt records H2 acc r
      (hsub r (List.mem_cons_self r l)) (hfresh r (List.mem_cons_self r l)) hInv
    rw [List.map_cons, List.nodup_cons] at hnd
    have hfresh2 : ∀ r2 ∈ l, alookup (batchStep cfg gt acc r).r2b (getRecordKey r2) = none := by
      intro r2 h2
      rw [hpres (getRecordKey r2) (fun he => hnd.1 (he ▸ List.mem_map_of_mem getRecordKey h2))]
      exact hfresh r2 (List.mem_cons_of_mem r h2)
    obtain ⟨heq, hInv3⟩ := ih (batchStep cfg gt acc r)
      (fun r2 h2 => hsub r2 (List.mem_cons_of_mem r h2)) hnd.2 hfresh2 hInv2
    rw [hstep, heq]
    exact ⟨rfl, hInv3⟩

theorem mergeGroups_cons (st : DSState) (p : String × GAcc) (t : List (String × GAcc)) :
    mergeGroups st (p :: t) = mergeGroups (mergeGroups st [p]) t := by
  unfold mergeGroups
  rw [List.foldl_cons, List.foldl_cons, List.foldl_nil]

theorem mergeGroups_single (bs : List (String × Bkt)) (r2b : List (String × String))
    (p : String × GAcc) (hlook : alookup bs p.1 = none)
    (hndR : (r2b.map (fun q => q.1)).Nodup)
    (hkeys : ∀ rk ∈ p.2.recordKeys, alookup r2b rk = some p.1)
    (hanyf : (bs.any (fun q => q.1 == p.1)) = false) :
    mergeGroups ⟨bs, r2b⟩ [p] = ⟨bs ++ [(p.1, bktOf p.1 p.2)], r2b⟩ := by
  unfold mergeGroups
  rw [List.foldl_cons, List.foldl_nil]
  dsimp only
  rw [hlook]
  dsimp only
  rw [aset_append_self bs p.1 _ _ hanyf]
  rw [foldl_aset_id p.2.recordKeys r2b p.1 hndR hkeys]
  rfl

theorem mergeGroups_eq (bs : List (String × Bkt)) (r2b : List (String × String))
    (grouped : List (String × GAcc))
    (hndR : (r2b.map (fun p => p.1)).Nodup)
    (hdisj : ∀ p ∈ grouped, (bs.any (fun q => q.1 == p.1)) = false)
    (hndG : (grouped.map (fun p => p.1)).Nodup)
    (hkeys : ∀ p ∈ grouped, ∀ rk ∈ p.2.recordKeys, alookup r2b rk = some p.1) :
    mergeGroups ⟨bs, r2b⟩ grouped
      = ⟨bs ++ grouped.map (fun p => (p.1, bktOf p.1 p.2)), r2b⟩ := by
  induction grouped generalizing bs with
  | nil => simp [mergeGroups]
  | cons p t ih =>
    have hanyf := hdisj p (List.mem_cons_self p t)
    have hlook : alookup bs p.1 = none := alookup_none_of_any_false bs p.1 hanyf
    rw [List.map_cons, List.nodup_cons] at hndG
    rw [mergeGroups_cons,
      mergeGroups_single bs r2b p hlook hndR (hkeys p (List.mem_cons_self p t)) hanyf]
    have hdisj2 : ∀ q ∈ t, ((bs ++ [(p.1, bktOf p.1 p.2)]).any (fun q2 => q2.1 == q.1))
        = false := by
      intro q hq
      rw [List.any_append]
      have h1 := hdisj q (List.mem_cons_of_mem p hq)
      rw [h1]
      have h2 : p.1 ≠ q.1 := by
        intro he
        exact hndG.1 (he ▸ List.mem_map_of_mem (fun p => p.1) hq)
      simp [h2]
    rw [ih (bs ++ [(p.1, bktOf p.1 p.2)]) hdisj2 hndG.2
      (fun q hq => hkeys q (List.mem_cons_of_mem p hq))]
    rw [List.map_cons, List.append_assoc]
    rfl

/-- C2 (amended): batch loading equals one-by-one loading provided the record
keys are pairwise distinct and the load is day-cache coherent (records whose
timestamps share a UTC-day cache key get the same group).  Unconditionally the
claim is false: the batch path's per-UTC-day `groupInfoCache` reuses the first
record's group for every later record of the same UTC day, which diverges from
the sequential path whenever a configured day-start offset splits a UTC day
across two buckets (see the counterexample). -/
theorem c2_loadData_eq_loadOneByOne (records : List Rec) (cfg : CycleConfig) (gt : String)
    (H1 : (records.map getRecordKey).Nodup)
    (H2 : giCoherent cfg gt records) :
    loadData records cfg gt = loadOneByOne records cfg gt := by
  unfold loadData addRecordsToBucketBatch
  by_cases hemp : records.isEmpty = true
  · rw [if_pos hemp]
    have hnil : records = [] := by
      cases records with
      | nil => rfl
      | cons x xs => cases hemp
    rw [hnil]
    rfl
  · rw [if_neg hemp]
    dsimp only
    have hInv0 : InvA cfg gt records ⟨[], [], emptyDS.recordToBucket⟩ := by
      refine ⟨List.nodup_nil, List.nodup_nil, ?_, ?_⟩
      · intro gk g h
        cases h
      · intro ck gi h
        cases h
    obtain ⟨heq, hinv⟩ := batch_seq_fold cfg gt records H2 records
      ⟨[], [], emptyDS.recordToBucket⟩ (fun r hr => hr) H1 (fun r hr => rfl) hInv0
    obtain ⟨hndG, hndR, hGR, hGI⟩ := hinv
    have hkeys : ∀ p ∈ (records.foldl (batchStep cfg gt)
        ⟨[], [], emptyDS.recordToBucket⟩).grouped,
        ∀ rk ∈ p.2.recordKeys,
          alookup (records.foldl (batchStep cfg gt) ⟨[], [], emptyDS.recordToBucket⟩).r2b rk
            = some p.1 := by
      intro p hp rk hrk
      exact (hGR p.1 p.2 (alookup_of_mem_nodup _ p hndG hp)).2 rk hrk
    have hm := mergeGroups_eq []
      (records.foldl (batchStep cfg gt) ⟨[], [], emptyDS.recordToBucket⟩).r2b
      (records.foldl (batchStep cfg gt) ⟨[], [], emptyDS.recordToBucket⟩).grouped
      hndR (fun p hp => rfl) hndG hkeys
    rw [show ({ emptyDS with recordToBucket :=
        (records.foldl (batchStep cfg gt) ⟨[], [], emptyDS.recordToBucket⟩).r2b } : DSState)
      = ⟨[], (records.foldl (batchStep cfg gt) ⟨[], [], emptyDS.recordToBucket⟩).r2b⟩
      from rfl]
    rw [hm]
    unfold loadOneByOne
    rw [show (emptyDS : DSState) = stateOf ⟨[], [], emptyDS.recordToBucket⟩ from rfl, heq]
    rfl

/-- Counterexample to the unconditional C2 claim: with day-start offset
`06:00`, two records on the same UTC day (03:00 and 12:00 of 2024-01-16)
belong to different day buckets, but the batch path's per-UTC-day group cache
routes both to the first record's bucket, so the two loaders disagree. -/
theorem c2_cex_giCache_day_collision :
    loadData [rB1, rB2] cfgDay0600 "day" ≠ loadOneByOne [rB1, rB2] cfgDay0600 "day" := by
  decide

theorem c2_witness :
    ([rW1, rW2].map getRecordKey).Nodup ∧ giCoherent defaultConfig "day" [rW1, rW2] ∧
      loadData [rW1, rW2] defaultConfig "day" = loadOneByOne [rW1, rW2] defaultConfig "day" :=
  ⟨by decide, by decide,
    c2_loadData_eq_loadOneByOne [rW1, rW2] defaultConfig "day" (by decide) (by decide)⟩
